import Mathlib

/-!
Shallow embedding of the compiler front end in `compiler.py`: a character-level
scanner (class `Scanner`) followed by a recursive-descent LL(1) parser
(class `Parser`), plus the token-flattening glue of `main`.

Conventions of the embedding:
* Python strings are modelled as `List Char` for the scanned text and for
  in-flight lexeme accumulators; finished lexemes and messages are `String`.
* Python character class tests (`str.isalpha`, `str.isdigit`, `str.isalnum`,
  `str.isspace`) are modelled on the ASCII range, which is the range the
  language's tokens are drawn from.
* The scanner's `while` loops are expressed with an explicit fuel argument;
  every wrapper passes `text.length - pos + 1` fuel, which is always enough,
  so the wrappers compute exactly what the Python loops compute.
* `tokens_per_line` is a Python dict from line number to token list, filled
  in emission order with monotone line keys; it is modelled by the list of
  `(line, token)` pairs in emission order, from which the dict is recovered
  by filtering on a key (`pyFlatten` below mirrors `main`'s
  `for ln in sorted(...): tokens.extend(...)`).
* `symbol_table_set` in the Python code is kept equal (as a set) to the
  `symbol_table` list at all times; membership is therefore modelled as list
  membership.
* The parser's `self.tokens[self.pos]` raises `IndexError` when `pos` is out
  of range; this abort is modelled by the `PResult.crash` constructor, which
  records the failing index.  Since the parser's mutual recursion does not
  terminate on all inputs, the grammar functions take a fuel argument;
  `PResult.fuelOut` marks fuel exhaustion and is never a behaviour of the
  Python code, merely an artifact of the embedding.
-/

namespace Compiler

/-- Embeds the `KEYWORDS` constant (compiler.py line 4). -/
def KEYWORDS : List String := ["break", "else", "if", "for", "int", "return", "void"]

/-- Embeds the `SYMBOLS` constant (compiler.py line 6). -/
def SYMBOLS : List Char :=
  [';', ':', ',', '[', ']', '(', ')', '\x7b', '\x7d', '+', '-', '*', '/', '<', '=']

/-- Embeds the `WHITESPACE_CHARS` constant (compiler.py line 7). -/
def WHITESPACE_CHARS : List Char := [' ', '\t', '\r', '\x0b', '\x0c', '\n']

/-- Models Python `str.isalpha` on the ASCII range. -/
def pyIsAlpha (c : Char) : Bool := c.isAlpha

/-- Models Python `str.isdigit` on the ASCII range. -/
def pyIsDigit (c : Char) : Bool := c.isDigit

/-- Models Python `str.isalnum` on the ASCII range. -/
def pyIsAlnum (c : Char) : Bool := pyIsAlpha c || pyIsDigit c

/-- Models Python `str.isspace` on the ASCII range (space, tab, newline,
carriage return, vertical tab, form feed and the four separator controls). -/
def pyIsSpace (c : Char) : Bool :=
  c = ' ' || c = '\t' || c = '\n' || c = '\r' || c = '\x0b' || c = '\x0c' ||
  c = '\x1c' || c = '\x1d' || c = '\x1e' || c = '\x1f'

/-- Lexicographic comparison of strings by code point, as Python's `<=` on
`str` behaves for the comparisons `sorted` performs. -/
def lexLe : List Char → List Char → Bool
  | [], _ => true
  | _ :: _, [] => false
  | a :: as, b :: bs => if a = b then lexLe as bs else decide (a.toNat < b.toNat)

/-- Models Python `sorted` on a list of strings (insertion sort; any correct
sort gives the same result). -/
def pyInsert (x : String) : List String → List String
  | [] => [x]
  | y :: ys => if lexLe x.toList y.toList then x :: y :: ys else y :: pyInsert x ys

/-- Models Python `sorted` on a list of strings. -/
def pySorted : List String → List String
  | [] => []
  | x :: xs => pyInsert x (pySorted xs)

/-- Embeds `sorted(KEYWORDS.copy())` used by `Scanner.__init__` (line 19). -/
def sortedKeywords : List String := pySorted KEYWORDS

/-- Embeds the scanner's mutable state: `text`, `pos`, `lineno`,
`tokens_per_line` (as the emission-ordered list of `(line, kind, lexeme)`
triples), `errors`, and `symbol_table` (compiler.py lines 12-20). -/
@[ext]
structure SState where
  text : List Char
  pos : Nat
  lineno : Nat
  tokensPerLine : List (Nat × String × String)
  errors : List (Nat × String × String)
  symbolTable : List String
deriving DecidableEq

/-- Embeds `Scanner.peek` (lines 24-26). -/
def peek (s : SState) (offset : Nat) : Option Char := s.text[s.pos + offset]?

/-- Embeds `Scanner.advance` (lines 28-35). -/
def advance (s : SState) : Option Char × SState :=
  match s.text[s.pos]? with
  | none => (none, s)
  | some ch =>
    (some ch, { s with pos := s.pos + 1,
                       lineno := if ch = '\n' then s.lineno + 1 else s.lineno })

/-- Embeds `Scanner.record_token` (lines 37-44): append the token under the
current line key and extend the symbol table with new `ID`/`KEYWORD` lexemes. -/
def record_token (s : SState) (ttype lexeme : String) : SState :=
  let s1 := { s with tokensPerLine := s.tokensPerLine ++ [(s.lineno, ttype, lexeme)] }
  if (ttype = "ID" ∨ ttype = "KEYWORD") ∧ lexeme ∉ s1.symbolTable then
    { s1 with symbolTable := s1.symbolTable ++ [lexeme] }
  else s1

/-- Embeds `Scanner.record_error` (lines 46-48); `line = none` models the
Python default argument (use the current `lineno`). -/
def record_error (s : SState) (lexeme message : String) (line : Option Nat) : SState :=
  { s with errors := s.errors ++ [(line.getD s.lineno, lexeme, message)] }

/-- Embeds `Scanner.is_symbol` (lines 50-51). -/
def is_symbol (ch : Char) : Bool := SYMBOLS.contains ch

/-- Embeds `Scanner.is_whitespace` (lines 53-54). -/
def is_whitespace (ch : Char) : Bool := WHITESPACE_CHARS.contains ch

/-- Generic character-consuming loop: while the current character exists and
satisfies `p`, append it to the accumulator and advance.  Every `while` loop
of the scanner that consumes a maximal run of characters is an instance. -/
def takeRun (p : Char → Bool) : Nat → List Char → SState → List Char × SState
  | 0, acc, s => (acc, s)
  | fuel + 1, acc, s =>
    match peek s 0 with
    | none => (acc, s)
    | some c =>
      if p c then takeRun p fuel (acc ++ [c]) (advance s).2 else (acc, s)

/-- Embeds `Scanner.skip_whitespace` (lines 56-61). -/
def skip_whitespace (s : SState) : SState :=
  (takeRun (fun c => WHITESPACE_CHARS.contains c) (s.text.length - s.pos + 1) [] s).2

/-- Embeds `Scanner.consume_line_comment` (lines 67-72): consume to the end of
line or input (the `"COMMENT"` result is implicit in the caller). -/
def consume_line_comment (s : SState) : SState :=
  (takeRun (fun c => !(c = '\n')) (s.text.length - s.pos + 1) [] s).2

/-- Embeds the truncation `content[:7] + "..." if len(content) > 7 else content`
of `Scanner.consume_block_comment` (line 79). -/
def clipContent (content : List Char) : String :=
  if content.length > 7 then String.mk (content.take 7) ++ "..." else String.mk content

/-- Embeds the loop of `Scanner.consume_block_comment` (lines 74-87).  The
Bool result is `true` for `"COMMENT"` (closed comment) and `false` for
`"ERROR"` (end of input reached first). -/
def consume_block_comment_go : Nat → Nat → List Char → SState → Bool × SState
  | 0, _, _, s => (false, s)
  | fuel + 1, start_line, content, s =>
    match peek s 0 with
    | none =>
      (false, record_error s ("/* " ++ clipContent content) "Open comment at EOF" (some start_line))
    | some ch =>
      if ch = '*' ∧ peek s 1 = some '/' then
        (true, (advance (advance s).2).2)
      else
        consume_block_comment_go fuel start_line (content ++ [ch]) (advance s).2

/-- Embeds `Scanner.consume_block_comment` (lines 74-87). -/
def consume_block_comment (start_line : Nat) (s : SState) : Bool × SState :=
  consume_block_comment_go (s.text.length - s.pos + 1) start_line [] s

/-- Result of one tokenizer step: Python's `"COMMENT"`, `"ERROR"`, or a
`(type, lexeme)` tuple. -/
inductive ScanRes where
  | comment
  | error
  | tok (ttype lexeme : String)
deriving DecidableEq

/-- Embeds `Scanner.read_slash_sequence` (lines 88-101). -/
def read_slash_sequence (s : SState) : ScanRes × SState :=
  let start_line := s.lineno
  let s1 := (advance s).2
  let nxt := peek s1 0
  if nxt = some '/' then (.comment, consume_line_comment (advance s1).2)
  else if nxt = some '*' then
    let r := consume_block_comment start_line (advance s1).2
    (if r.1 then ScanRes.comment else ScanRes.error, r.2)
  else (.tok "SYMBOL" "/", s1)

/-- Embeds `Scanner.detect_stray_closing_comment` (lines 103-109); `true`
stands for the `"ERROR"` result, `false` for `None`. -/
def detect_stray_closing_comment (s : SState) : Bool × SState :=
  if peek s 0 = some '*' ∧ peek s 1 = some '/' then
    let ln := s.lineno
    let r1 := advance s
    let r2 := advance r1.2
    let lex := String.mk (r1.1.toList ++ r2.1.toList)
    (true, record_error r2.2 lex "Stray closing comment" (some ln))
  else (false, s)

/-- Continuation predicate of the identifier/number runs:
`ch.isalnum() or ch == '_'`. -/
def isIdentCont (ch : Char) : Bool := pyIsAlnum ch || ch = '_'

/-- Embeds `Scanner.read_identifier_head` (lines 115-125). -/
def read_identifier_head (s : SState) : Option (List Char) × SState :=
  match peek s 0 with
  | none => (none, s)
  | some c =>
    if pyIsAlpha c ∨ c = '_' then
      let r := takeRun isIdentCont (s.text.length - s.pos + 1) [] s
      (some r.1, r.2)
    else (none, s)

/-- Continuation predicate of `Scanner.read_illegal_continuation`:
not whitespace (Python `isspace`) and not a symbol. -/
def isIllegalCont (ch : Char) : Bool := !(pyIsSpace ch) && !(is_symbol ch)

/-- Embeds `Scanner.read_illegal_continuation` (lines 127-134). -/
def read_illegal_continuation (s : SState) : List Char × SState :=
  takeRun isIllegalCont (s.text.length - s.pos + 1) [] s

/-- Embeds `Scanner.scan_identifier` (lines 136-151). -/
def scan_identifier (s : SState) : Option ScanRes × SState :=
  let start_line := s.lineno
  match read_identifier_head s with
  | (none, s1) => (none, s1)
  | (some lex, s1) =>
    let bad := match peek s1 0 with
      | none => false
      | some nxt => !(is_whitespace nxt) && !(is_symbol nxt)
    if bad then
      let r := read_illegal_continuation s1
      (some .error, record_error r.2 (String.mk (lex ++ r.1)) "Illegal character" (some start_line))
    else if String.mk lex ∈ KEYWORDS then (some (.tok "KEYWORD" (String.mk lex)), s1)
    else (some (.tok "ID" (String.mk lex)), s1)

/-- Embeds `Scanner.consume_number_head` (lines 157-164). -/
def consume_number_head (s : SState) : List Char × SState :=
  takeRun pyIsDigit (s.text.length - s.pos + 1) [] s

/-- Embeds `Scanner.read_number` (lines 166-187). -/
def read_number (s : SState) : Option ScanRes × SState :=
  match peek s 0 with
  | none => (none, s)
  | some c =>
    if pyIsDigit c then
      let start_line := s.lineno
      let r1 := consume_number_head s
      let bad := match peek r1.2 0 with
        | none => false
        | some d => pyIsAlpha d || d = '_'
      if bad then
        let r2 := takeRun isIdentCont (r1.2.text.length - r1.2.pos + 1) r1.1 r1.2
        (some .error, record_error r2.2 (String.mk r2.1) "Malformed number" (some start_line))
      else if r1.1.length > 1 ∧ r1.1.head? = some '0' then
        (some .error, record_error r1.2 (String.mk r1.1) "Malformed number" (some start_line))
      else (some (.tok "NUM" (String.mk r1.1)), r1.2)
    else (none, s)

/-- Embeds `Scanner.read_symbol` (lines 193-208). -/
def read_symbol (s : SState) : Option ScanRes × SState :=
  match peek s 0 with
  | none => (none, s)
  | some c =>
    if c = '=' then
      let s1 := (advance s).2
      if peek s1 0 = some '=' then (some (.tok "SYMBOL" "=="), (advance s1).2)
      else (some (.tok "SYMBOL" "="), s1)
    else if is_symbol c then
      let r := advance s
      (some (.tok "SYMBOL" (String.mk r.1.toList)), r.2)
    else (none, s)

/-- Embeds `Scanner.read_illegal` (lines 210-214). -/
def read_illegal (s : SState) : ScanRes × SState :=
  let r := advance s
  match r.1 with
  | some c => (.error, record_error r.2 (String.mk [c]) "Illegal character" none)
  | none => (.error, r.2)

/-- Embeds `Scanner.next_token` (lines 220-252). -/
def next_token (s : SState) : Option ScanRes × SState :=
  let s0 := skip_whitespace s
  match peek s0 0 with
  | none => (none, s0)
  | some c =>
    if c = '/' then
      let r := read_slash_sequence s0
      (some r.1, r.2)
    else
      let rs := detect_stray_closing_comment s0
      if rs.1 then (some .error, rs.2)
      else
        match scan_identifier rs.2 with
        | (some r, s2) => (some r, s2)
        | (none, s2) =>
          match read_number s2 with
          | (some r, s3) => (some r, s3)
          | (none, s3) =>
            match read_symbol s3 with
            | (some r, s4) => (some r, s4)
            | (none, s4) =>
              let r := read_illegal s4
              (some r.1, r.2)

/-- Embeds the loop of `Scanner.scan` (lines 258-266). -/
def scan_go : Nat → SState → SState
  | 0, s => s
  | fuel + 1, s =>
    match next_token s with
    | (none, s1) => s1
    | (some .comment, s1) => scan_go fuel s1
    | (some .error, s1) => scan_go fuel s1
    | (some (.tok t l), s1) => scan_go fuel (record_token s1 t l)

/-- Embeds `Scanner.scan` (lines 258-266); the fuel is enough because every
produced token or diagnostic strictly advances the cursor. -/
def scan (s : SState) : SState := scan_go (s.text.length - s.pos + 1) s

/-- Embeds `Scanner.__init__` together with `main`'s assignment of the input
text (lines 12-20 and 810-812). -/
def initState (text : String) : SState :=
  { text := text.toList, pos := 0, lineno := 1,
    tokensPerLine := [], errors := [], symbolTable := sortedKeywords }

/-- Largest line key occurring in the emission list (0 when empty). -/
def maxKey (l : List (Nat × String × String)) : Nat :=
  l.foldr (fun p m => max p.1 m) 0

/-- Ascending list of the distinct line keys of the emission list; models
Python's `sorted(scanner.tokens_per_line)` over the dict's key set. -/
def sortedLineKeys (l : List (Nat × String × String)) : List Nat :=
  (List.range (maxKey l + 1)).filter (fun k => l.any (fun p => p.1 == k))

/-- Embeds the token flattening of `main` (lines 817-819): walk the line
numbers in ascending order and concatenate each line's token group. -/
def pyFlatten (l : List (Nat × String × String)) : List (String × String) :=
  (sortedLineKeys l).flatMap (fun k => (l.filter (fun p => p.1 == k)).map (fun p => p.2))

/-- Parser token: a `(type, lexeme)` pair, as the flattened list of `main`. -/
abbrev PTok := String × String

/-- Embeds the `Node` class (lines 299-316): a label and ordered children. -/
inductive Node where
  | mk (name : String) (children : List Node)

/-- Embeds the parser's mutable state (lines 324-327): cursor and error list. -/
structure PState where
  pos : Nat
  errors : List String
deriving DecidableEq

/-- Result of running a parser production: normal return, an `IndexError`
raised by `lookahead` at the recorded cursor (line 330), or fuel exhaustion
(an artifact of the embedding: the Python recursion diverges there). -/
inductive PResult (α : Type) where
  | ok (a : α) (st : PState)
  | crash (pos : Nat)
  | fuelOut

/-- Embeds `Parser.lookahead` (lines 329-330); `none` models the
out-of-range `IndexError`. -/
def lookahead (tks : List PTok) (st : PState) : Option PTok := tks[st.pos]?

/-- Embeds `Parser.advance` (lines 332-333). -/
def padvance (st : PState) : PState := { st with pos := st.pos + 1 }

/-- Sequencing of parser computations: propagate crash and fuel exhaustion. -/
def pbind : PResult α → (α → PState → PResult β) → PResult β
  | .ok a st, f => f a st
  | .crash p, _ => .crash p
  | .fuelOut, _ => .fuelOut

/-- Embeds `Parser.match` (lines 335-343). -/
def pmatch (tks : List PTok) (expected : String) (st : PState) : PResult Node :=
  match lookahead tks st with
  | none => .crash st.pos
  | some tok =>
    if tok.2 = expected then
      .ok (Node.mk ("(" ++ tok.1 ++ ", " ++ tok.2 ++ ")") []) (padvance st)
    else
      .ok (Node.mk ("(SYMBOL, " ++ expected ++ ")") [])
          { st with errors := st.errors ++ ["syntax error, missing " ++ expected] }

/-- Embeds `Parser.match_type` (lines 345-353). -/
def match_type (tks : List PTok) (expected_type : String) (st : PState) : PResult Node :=
  match lookahead tks st with
  | none => .crash st.pos
  | some tok =>
    if tok.1 = expected_type then
      .ok (Node.mk ("(" ++ tok.1 ++ ", " ++ tok.2 ++ ")") []) (padvance st)
    else
      .ok (Node.mk ("(" ++ expected_type ++ ", )") [])
          { st with errors := st.errors ++ ["syntax error, missing " ++ expected_type] }

/-- Embeds `Parser.epsilon` (lines 356-357). -/
def epsilonNode : Node := Node.mk "epsilon" []

/-- Embeds `Parser.Type_specifier` (lines 417-422); it reads the lookahead
and advances unconditionally. -/
def Type_specifier (tks : List PTok) (st : PState) : PResult Node :=
  match lookahead tks st with
  | none => .crash st.pos
  | some tok =>
    .ok (Node.mk "Type-specifier" [Node.mk ("(KEYWORD, " ++ tok.2 ++ ")") []]) (padvance st)

/-- Embeds `Parser.Relop` (lines 624-627). -/
def Relop (tks : List PTok) (st : PState) : PResult Node :=
  match lookahead tks st with
  | none => .crash st.pos
  | some tok =>
    pbind (pmatch tks tok.2 st) (fun m st1 => .ok (Node.mk "Relop" [m]) st1)

/-- Embeds `Parser.Addop` (lines 668-671). -/
def Addop (tks : List PTok) (st : PState) : PResult Node :=
  match lookahead tks st with
  | none => .crash st.pos
  | some tok =>
    pbind (pmatch tks tok.2 st) (fun m st1 => .ok (Node.mk "Addop" [m]) st1)

mutual

/-- Embeds `Parser.Program` (lines 361-365). -/
def Program (tks : List PTok) : Nat → PState → PResult Node
  | 0, _ => .fuelOut
  | fuel + 1, st =>
    pbind (Declaration_list tks fuel st) (fun dl st1 =>
      .ok (Node.mk "Program" [dl, Node.mk "$" []]) st1)

/-- Embeds `Parser.Declaration_list` (lines 367-374). -/
def Declaration_list (tks : List PTok) : Nat → PState → PResult Node
  | 0, _ => .fuelOut
  | fuel + 1, st =>
    match lookahead tks st with
    | none => .crash st.pos
    | some tok =>
      if tok.2 = "int" ∨ tok.2 = "void" then
        pbind (Declaration tks fuel st) (fun d st1 =>
          pbind (Declaration_list tks fuel st1) (fun dl st2 =>
            .ok (Node.mk "Declaration-list" [d, dl]) st2))
      else
        .ok (Node.mk "Declaration-list" [epsilonNode]) st

/-- Embeds `Parser.Declaration` (lines 376-380). -/
def Declaration (tks : List PTok) : Nat → PState → PResult Node
  | 0, _ => .fuelOut
  | fuel + 1, st =>
    pbind (Declaration_initial tks fuel st) (fun di st1 =>
      pbind (Declaration_prime tks fuel st1) (fun dp st2 =>
        .ok (Node.mk "Declaration" [di, dp]) st2))

/-- Embeds `Parser.Declaration_initial` (lines 382-388); after the type
specifier it reads the lookahead as an `ID` and advances unconditionally. -/
def Declaration_initial (tks : List PTok) : Nat → PState → PResult Node
  | 0, _ => .fuelOut
  | _fuel + 1, st =>
    pbind (Type_specifier tks st) (fun ts st1 =>
      match lookahead tks st1 with
      | none => .crash st1.pos
      | some tok =>
        .ok (Node.mk "Declaration-initial" [ts, Node.mk ("(ID, " ++ tok.2 ++ ")") []])
            (padvance st1))

/-- Embeds `Parser.Declaration_prime` (lines 390-396). -/
def Declaration_prime (tks : List PTok) : Nat → PState → PResult Node
  | 0, _ => .fuelOut
  | fuel + 1, st =>
    match lookahead tks st with
    | none => .crash st.pos
    | some tok =>
      if tok.2 = "(" then
        pbind (Fun_declaration_prime tks fuel st) (fun f st1 =>
          .ok (Node.mk "Declaration-prime" [f]) st1)
      else
        pbind (Var_declaration_prime tks fuel st) (fun v st1 =>
          .ok (Node.mk "Declaration-prime" [v]) st1)

/-- Embeds `Parser.Var_declaration_prime` (lines 398-407). -/
def Var_declaration_prime (tks : List PTok) : Nat → PState → PResult Node
  | 0, _ => .fuelOut
  | _fuel + 1, st =>
    match lookahead tks st with
    | none => .crash st.pos
    | some tok =>
      if tok.2 = "[" then
        pbind (pmatch tks "[" st) (fun m1 st1 =>
          pbind (match_type tks "NUM" st1) (fun m2 st2 =>
            pbind (pmatch tks "]" st2) (fun m3 st3 =>
              pbind (pmatch tks ";" st3) (fun m4 st4 =>
                .ok (Node.mk "Var-declaration-prime" [m1, m2, m3, m4]) st4))))
      else
        pbind (pmatch tks ";" st) (fun m st1 =>
          .ok (Node.mk "Var-declaration-prime" [m]) st1)

/-- Embeds `Parser.Fun_declaration_prime` (lines 409-415). -/
def Fun_declaration_prime (tks : List PTok) : Nat → PState → PResult Node
  | 0, _ => .fuelOut
  | fuel + 1, st =>
    pbind (pmatch tks "(" st) (fun m1 st1 =>
      pbind (Params tks fuel st1) (fun ps st2 =>
        pbind (pmatch tks ")" st2) (fun m2 st3 =>
          pbind (Compound_stmt tks fuel st3) (fun cs st4 =>
            .ok (Node.mk "Fun-declaration-prime" [m1, ps, m2, cs]) st4))))

/-- Embeds `Parser.Params` (lines 424-435). -/
def Params (tks : List PTok) : Nat → PState → PResult Node
  | 0, _ => .fuelOut
  | fuel + 1, st =>
    match lookahead tks st with
    | none => .crash st.pos
    | some tok =>
      if tok.2 = "void" then
        pbind (pmatch tks "void" st) (fun m st1 =>
          .ok (Node.mk "Params" [m]) st1)
      else
        pbind (pmatch tks "int" st) (fun m st1 =>
          match lookahead tks st1 with
          | none => .crash st1.pos
          | some tok2 =>
            pbind (Param_prime tks fuel (padvance st1)) (fun pp st2 =>
              pbind (Param_list tks fuel st2) (fun pl st3 =>
                .ok (Node.mk "Params"
                      [m, Node.mk ("(ID, " ++ tok2.2 ++ ")") [], pp, pl]) st3)))

/-- Embeds `Parser.Param_list` (lines 438-446). -/
def Param_list (tks : List PTok) : Nat → PState → PResult Node
  | 0, _ => .fuelOut
  | fuel + 1, st =>
    match lookahead tks st with
    | none => .crash st.pos
    | some tok =>
      if tok.2 = "," then
        pbind (pmatch tks "," st) (fun m st1 =>
          pbind (Param tks fuel st1) (fun p st2 =>
            pbind (Param_list tks fuel st2) (fun pl st3 =>
              .ok (Node.mk "Param-list" [m, p, pl]) st3)))
      else
        .ok (Node.mk "Param-list" [epsilonNode]) st

/-- Embeds `Parser.Param` (lines 449-453). -/
def Param (tks : List PTok) : Nat → PState → PResult Node
  | 0, _ => .fuelOut
  | fuel + 1, st =>
    pbind (Declaration_initial tks fuel st) (fun di st1 =>
      pbind (Param_prime tks fuel st1) (fun pp st2 =>
        .ok (Node.mk "Param" [di, pp]) st2))

/-- Embeds `Parser.Param_prime` (lines 456-463). -/
def Param_prime (tks : List PTok) : Nat → PState → PResult Node
  | 0, _ => .fuelOut
  | _fuel + 1, st =>
    match lookahead tks st with
    | none => .crash st.pos
    | some tok =>
      if tok.2 = "[" then
        pbind (pmatch tks "[" st) (fun m1 st1 =>
          pbind (pmatch tks "]" st1) (fun m2 st2 =>
            .ok (Node.mk "Param-prime" [m1, m2]) st2))
      else
        .ok (Node.mk "Param-prime" [epsilonNode]) st

/-- Embeds `Parser.Compound_stmt` (lines 466-472). -/
def Compound_stmt (tks : List PTok) : Nat → PState → PResult Node
  | 0, _ => .fuelOut
  | fuel + 1, st =>
    pbind (pmatch tks "\x7b" st) (fun m1 st1 =>
      pbind (Declaration_list tks fuel st1) (fun dl st2 =>
        pbind (Statement_list tks fuel st2) (fun sl st3 =>
          pbind (pmatch tks "\x7d" st3) (fun m2 st4 =>
            .ok (Node.mk "Compound-stmt" [m1, dl, sl, m2]) st4))))

/-- Embeds `Parser.Statement_list` (lines 474-489). -/
def Statement_list (tks : List PTok) : Nat → PState → PResult Node
  | 0, _ => .fuelOut
  | fuel + 1, st =>
    match lookahead tks st with
    | none => .crash st.pos
    | some tok =>
      if tok.1 = "ID" ∨ tok.1 = "NUM" ∨
         tok.2 ∈ ["(", ";", "\x7b", "if", "for", "return", "break"] then
        pbind (Statement tks fuel st) (fun st' st1 =>
          pbind (Statement_list tks fuel st1) (fun sl st2 =>
            .ok (Node.mk "Statement-list" [st', sl]) st2))
      else
        .ok (Node.mk "Statement-list" [epsilonNode]) st

/-- Embeds `Parser.Statement` (lines 493-508). -/
def Statement (tks : List PTok) : Nat → PState → PResult Node
  | 0, _ => .fuelOut
  | fuel + 1, st =>
    match lookahead tks st with
    | none => .crash st.pos
    | some tok =>
      if tok.2 = "\x7b" then
        pbind (Compound_stmt tks fuel st) (fun n st1 =>
          .ok (Node.mk "Statement" [n]) st1)
      else if tok.2 = "if" then
        pbind (Selection_stmt tks fuel st) (fun n st1 =>
          .ok (Node.mk "Statement" [n]) st1)
      else if tok.2 = "for" then
        pbind (Iteration_stmt tks fuel st) (fun n st1 =>
          .ok (Node.mk "Statement" [n]) st1)
      else if tok.2 = "return" then
        pbind (Return_stmt tks fuel st) (fun n st1 =>
          .ok (Node.mk "Statement" [n]) st1)
      else
        pbind (Expression_stmt tks fuel st) (fun n st1 =>
          .ok (Node.mk "Statement" [n]) st1)

/-- Embeds `Parser.Selection_stmt` (lines 510-518). -/
def Selection_stmt (tks : List PTok) : Nat → PState → PResult Node
  | 0, _ => .fuelOut
  | fuel + 1, st =>
    pbind (pmatch tks "if" st) (fun m1 st1 =>
      pbind (pmatch tks "(" st1) (fun m2 st2 =>
        pbind (Expression tks fuel st2) (fun e st3 =>
          pbind (pmatch tks ")" st3) (fun m3 st4 =>
            pbind (Statement tks fuel st4) (fun sm st5 =>
              pbind (Else_stmt tks fuel st5) (fun es st6 =>
                .ok (Node.mk "Selection-stmt" [m1, m2, e, m3, sm, es]) st6))))))

/-- Embeds `Parser.Else_stmt` (lines 520-527). -/
def Else_stmt (tks : List PTok) : Nat → PState → PResult Node
  | 0, _ => .fuelOut
  | fuel + 1, st =>
    match lookahead tks st with
    | none => .crash st.pos
    | some tok =>
      if tok.2 = "else" then
        pbind (pmatch tks "else" st) (fun m st1 =>
          pbind (Statement tks fuel st1) (fun sm st2 =>
            .ok (Node.mk "Else-stmt" [m, sm]) st2))
      else
        .ok (Node.mk "Else-stmt" [epsilonNode]) st

/-- Embeds `Parser.Iteration_stmt` (lines 529-540). -/
def Iteration_stmt (tks : List PTok) : Nat → PState → PResult Node
  | 0, _ => .fuelOut
  | fuel + 1, st =>
    pbind (pmatch tks "for" st) (fun m1 st1 =>
      pbind (pmatch tks "(" st1) (fun m2 st2 =>
        pbind (Expression tks fuel st2) (fun e1 st3 =>
          pbind (pmatch tks ";" st3) (fun m3 st4 =>
            pbind (Expression tks fuel st4) (fun e2 st5 =>
              pbind (pmatch tks ";" st5) (fun m4 st6 =>
                pbind (Expression tks fuel st6) (fun e3 st7 =>
                  pbind (pmatch tks ")" st7) (fun m5 st8 =>
                    pbind (Compound_stmt tks fuel st8) (fun cs st9 =>
                      .ok (Node.mk "Iteration-stmt"
                            [m1, m2, e1, m3, e2, m4, e3, m5, cs]) st9)))))))))

/-- Embeds `Parser.Return_stmt` (lines 543-547). -/
def Return_stmt (tks : List PTok) : Nat → PState → PResult Node
  | 0, _ => .fuelOut
  | fuel + 1, st =>
    pbind (pmatch tks "return" st) (fun m st1 =>
      pbind (Return_stmt_prime tks fuel st1) (fun r st2 =>
        .ok (Node.mk "Return-stmt" [m, r]) st2))

/-- Embeds `Parser.Return_stmt_prime` (lines 549-556). -/
def Return_stmt_prime (tks : List PTok) : Nat → PState → PResult Node
  | 0, _ => .fuelOut
  | fuel + 1, st =>
    match lookahead tks st with
    | none => .crash st.pos
    | some tok =>
      if tok.2 = ";" then
        pbind (pmatch tks ";" st) (fun m st1 =>
          .ok (Node.mk "Return-stmt-prime" [m]) st1)
      else
        pbind (Expression tks fuel st) (fun e st1 =>
          pbind (pmatch tks ";" st1) (fun m st2 =>
            .ok (Node.mk "Return-stmt-prime" [e, m]) st2))

/-- Embeds `Parser.Expression_stmt` (lines 559-569). -/
def Expression_stmt (tks : List PTok) : Nat → PState → PResult Node
  | 0, _ => .fuelOut
  | fuel + 1, st =>
    match lookahead tks st with
    | none => .crash st.pos
    | some tok =>
      if tok.2 = "break" then
        pbind (pmatch tks "break" st) (fun m1 st1 =>
          pbind (pmatch tks ";" st1) (fun m2 st2 =>
            .ok (Node.mk "Expression-stmt" [m1, m2]) st2))
      else if tok.2 = ";" then
        pbind (pmatch tks ";" st) (fun m st1 =>
          .ok (Node.mk "Expression-stmt" [m]) st1)
      else
        pbind (Expression tks fuel st) (fun e st1 =>
          pbind (pmatch tks ";" st1) (fun m st2 =>
            .ok (Node.mk "Expression-stmt" [e, m]) st2))

/-- Embeds `Parser.Expression` (lines 572-583). -/
def Expression (tks : List PTok) : Nat → PState → PResult Node
  | 0, _ => .fuelOut
  | fuel + 1, st =>
    match lookahead tks st with
    | none => .crash st.pos
    | some tok =>
      if tok.1 = "ID" then
        pbind (B tks fuel (padvance st)) (fun b st1 =>
          .ok (Node.mk "Expression" [Node.mk ("(ID, " ++ tok.2 ++ ")") [], b]) st1)
      else
        pbind (Simple_expression_zegond tks fuel st) (fun sz st1 =>
          .ok (Node.mk "Expression" [sz]) st1)

/-- Embeds `Parser.B` (lines 585-597). -/
def B (tks : List PTok) : Nat → PState → PResult Node
  | 0, _ => .fuelOut
  | fuel + 1, st =>
    match lookahead tks st with
    | none => .crash st.pos
    | some tok =>
      if tok.2 = "=" then
        pbind (pmatch tks "=" st) (fun m st1 =>
          pbind (Expression tks fuel st1) (fun e st2 =>
            .ok (Node.mk "B" [m, e]) st2))
      else if tok.2 = "[" then
        pbind (pmatch tks "[" st) (fun m1 st1 =>
          pbind (Expression tks fuel st1) (fun e st2 =>
            pbind (pmatch tks "]" st2) (fun m2 st3 =>
              pbind (H tks fuel st3) (fun h st4 =>
                .ok (Node.mk "B" [m1, e, m2, h]) st4))))
      else
        pbind (Simple_expression_prime tks fuel st) (fun sp st1 =>
          .ok (Node.mk "B" [sp]) st1)

/-- Embeds `Parser.H` (lines 600-609). -/
def H (tks : List PTok) : Nat → PState → PResult Node
  | 0, _ => .fuelOut
  | fuel + 1, st =>
    match lookahead tks st with
    | none => .crash st.pos
    | some tok =>
      if tok.2 = "=" then
        pbind (pmatch tks "=" st) (fun m st1 =>
          pbind (Expression tks fuel st1) (fun e st2 =>
            .ok (Node.mk "H" [m, e]) st2))
      else
        pbind (G tks fuel st) (fun g st1 =>
          pbind (D tks fuel st1) (fun d st2 =>
            pbind (C tks fuel st2) (fun c st3 =>
              .ok (Node.mk "H" [g, d, c]) st3)))

/-- Embeds `Parser.Simple_expression_prime` (lines 612-616). -/
def Simple_expression_prime (tks : List PTok) : Nat → PState → PResult Node
  | 0, _ => .fuelOut
  | fuel + 1, st =>
    pbind (Additive_expression_prime tks fuel st) (fun a st1 =>
      pbind (C tks fuel st1) (fun c st2 =>
        .ok (Node.mk "Simple-expression-prime" [a, c]) st2))

/-- Embeds `Parser.Simple_expression_zegond` (lines 618-622). -/
def Simple_expression_zegond (tks : List PTok) : Nat → PState → PResult Node
  | 0, _ => .fuelOut
  | fuel + 1, st =>
    pbind (Additive_expression_zegond tks fuel st) (fun a st1 =>
      pbind (C tks fuel st1) (fun c st2 =>
        .ok (Node.mk "Simple-expression-zegond" [a, c]) st2))

/-- Embeds `Parser.C` (lines 630-637). -/
def C (tks : List PTok) : Nat → PState → PResult Node
  | 0, _ => .fuelOut
  | fuel + 1, st =>
    match lookahead tks st with
    | none => .crash st.pos
    | some tok =>
      if tok.2 = "<" ∨ tok.2 = "==" then
        pbind (Relop tks st) (fun r st1 =>
          pbind (Additive_expression tks fuel st1) (fun a st2 =>
            .ok (Node.mk "C" [r, a]) st2))
      else
        .ok (Node.mk "C" [epsilonNode]) st

/-- Embeds `Parser.Additive_expression` (lines 639-643). -/
def Additive_expression (tks : List PTok) : Nat → PState → PResult Node
  | 0, _ => .fuelOut
  | fuel + 1, st =>
    pbind (Term tks fuel st) (fun t st1 =>
      pbind (D tks fuel st1) (fun d st2 =>
        .ok (Node.mk "Additive-expression" [t, d]) st2))

/-- Embeds `Parser.Additive_expression_prime` (lines 645-649). -/
def Additive_expression_prime (tks : List PTok) : Nat → PState → PResult Node
  | 0, _ => .fuelOut
  | fuel + 1, st =>
    pbind (Term_prime tks fuel st) (fun t st1 =>
      pbind (D tks fuel st1) (fun d st2 =>
        .ok (Node.mk "Additive-expression-prime" [t, d]) st2))

/-- Embeds `Parser.Additive_expression_zegond` (lines 651-655). -/
def Additive_expression_zegond (tks : List PTok) : Nat → PState → PResult Node
  | 0, _ => .fuelOut
  | fuel + 1, st =>
    pbind (Term_zegond tks fuel st) (fun t st1 =>
      pbind (D tks fuel st1) (fun d st2 =>
        .ok (Node.mk "Additive-expression-zegond" [t, d]) st2))

/-- Embeds `Parser.D` (lines 657-665). -/
def D (tks : List PTok) : Nat → PState → PResult Node
  | 0, _ => .fuelOut
  | fuel + 1, st =>
    match lookahead tks st with
    | none => .crash st.pos
    | some tok =>
      if tok.2 = "+" ∨ tok.2 = "-" then
        pbind (Addop tks st) (fun ao st1 =>
          pbind (Term tks fuel st1) (fun t st2 =>
            pbind (D tks fuel st2) (fun d st3 =>
              .ok (Node.mk "D" [ao, t, d]) st3)))
      else
        .ok (Node.mk "D" [epsilonNode]) st

/-- Embeds `Parser.Term` (lines 673-677). -/
def Term (tks : List PTok) : Nat → PState → PResult Node
  | 0, _ => .fuelOut
  | fuel + 1, st =>
    pbind (Signed_factor tks fuel st) (fun sf st1 =>
      pbind (G tks fuel st1) (fun g st2 =>
        .ok (Node.mk "Term" [sf, g]) st2))

/-- Embeds `Parser.Signed_factor` (lines 679-686). -/
def Signed_factor (tks : List PTok) : Nat → PState → PResult Node
  | 0, _ => .fuelOut
  | fuel + 1, st =>
    match lookahead tks st with
    | none => .crash st.pos
    | some tok =>
      if tok.2 = "+" ∨ tok.2 = "-" then
        pbind (pmatch tks tok.2 st) (fun m st1 =>
          pbind (Factor tks fuel st1) (fun f st2 =>
            .ok (Node.mk "Signed-factor" [m, f]) st2))
      else
        pbind (Factor tks fuel st) (fun f st1 =>
          .ok (Node.mk "Signed-factor" [f]) st1)

/-- Embeds `Parser.Factor` (lines 688-701). -/
def Factor (tks : List PTok) : Nat → PState → PResult Node
  | 0, _ => .fuelOut
  | fuel + 1, st =>
    match lookahead tks st with
    | none => .crash st.pos
    | some tok =>
      if tok.2 = "(" then
        pbind (pmatch tks "(" st) (fun m1 st1 =>
          pbind (Expression tks fuel st1) (fun e st2 =>
            pbind (pmatch tks ")" st2) (fun m2 st3 =>
              .ok (Node.mk "Factor" [m1, e, m2]) st3)))
      else if tok.1 = "ID" then
        pbind (Var_call_prime tks fuel (padvance st)) (fun v st1 =>
          .ok (Node.mk "Factor" [Node.mk ("(ID, " ++ tok.2 ++ ")") [], v]) st1)
      else
        pbind (match_type tks "NUM" st) (fun m st1 =>
          .ok (Node.mk "Factor" [m]) st1)

/-- Embeds `Parser.Term_prime` (lines 704-708). -/
def Term_prime (tks : List PTok) : Nat → PState → PResult Node
  | 0, _ => .fuelOut
  | fuel + 1, st =>
    pbind (Factor_prime tks fuel st) (fun f st1 =>
      pbind (G tks fuel st1) (fun g st2 =>
        .ok (Node.mk "Term-prime" [f, g]) st2))

/-- Embeds `Parser.Term_zegond` (lines 710-714). -/
def Term_zegond (tks : List PTok) : Nat → PState → PResult Node
  | 0, _ => .fuelOut
  | fuel + 1, st =>
    pbind (Signed_factor_zegond tks fuel st) (fun sf st1 =>
      pbind (G tks fuel st1) (fun g st2 =>
        .ok (Node.mk "Term-zegond" [sf, g]) st2))

/-- Embeds `Parser.G` (lines 716-724). -/
def G (tks : List PTok) : Nat → PState → PResult Node
  | 0, _ => .fuelOut
  | fuel + 1, st =>
    match lookahead tks st with
    | none => .crash st.pos
    | some tok =>
      if tok.2 = "*" ∨ tok.2 = "/" then
        pbind (pmatch tks tok.2 st) (fun m st1 =>
          pbind (Signed_factor tks fuel st1) (fun sf st2 =>
            pbind (G tks fuel st2) (fun g st3 =>
              .ok (Node.mk "G" [m, sf, g]) st3)))
      else
        .ok (Node.mk "G" [epsilonNode]) st

/-- Embeds `Parser.Factor_prime` (lines 726-734). -/
def Factor_prime (tks : List PTok) : Nat → PState → PResult Node
  | 0, _ => .fuelOut
  | fuel + 1, st =>
    match lookahead tks st with
    | none => .crash st.pos
    | some tok =>
      if tok.2 = "(" then
        pbind (pmatch tks "(" st) (fun m1 st1 =>
          pbind (Args tks fuel st1) (fun a st2 =>
            pbind (pmatch tks ")" st2) (fun m2 st3 =>
              .ok (Node.mk "Factor-prime" [m1, a, m2]) st3)))
      else
        .ok (Node.mk "Factor-prime" [epsilonNode]) st

/-- Embeds `Parser.Signed_factor_zegond` (lines 738-741). -/
def Signed_factor_zegond (tks : List PTok) : Nat → PState → PResult Node
  | 0, _ => .fuelOut
  | fuel + 1, st =>
    pbind (Factor_zegond tks fuel st) (fun f st1 =>
      .ok (Node.mk "Signed-factor-zegond" [f]) st1)

/-- Embeds `Parser.Factor_zegond` (lines 743-752). -/
def Factor_zegond (tks : List PTok) : Nat → PState → PResult Node
  | 0, _ => .fuelOut
  | fuel + 1, st =>
    match lookahead tks st with
    | none => .crash st.pos
    | some tok =>
      if tok.1 = "NUM" then
        .ok (Node.mk "Factor-zegond" [Node.mk ("(NUM, " ++ tok.2 ++ ")") []]) (padvance st)
      else
        pbind (pmatch tks "(" st) (fun m1 st1 =>
          pbind (Expression tks fuel st1) (fun e st2 =>
            pbind (pmatch tks ")" st2) (fun m2 st3 =>
              .ok (Node.mk "Factor-zegond" [m1, e, m2]) st3)))

/-- Embeds `Parser.Var_prime` (lines 754-762). -/
def Var_prime (tks : List PTok) : Nat → PState → PResult Node
  | 0, _ => .fuelOut
  | fuel + 1, st =>
    match lookahead tks st with
    | none => .crash st.pos
    | some tok =>
      if tok.2 = "[" then
        pbind (pmatch tks "[" st) (fun m1 st1 =>
          pbind (Expression tks fuel st1) (fun e st2 =>
            pbind (pmatch tks "]" st2) (fun m2 st3 =>
              .ok (Node.mk "Var-prime" [m1, e, m2]) st3)))
      else
        .ok (Node.mk "Var-prime" [epsilonNode]) st

/-- Embeds `Parser.Var_call_prime` (lines 764-772). -/
def Var_call_prime (tks : List PTok) : Nat → PState → PResult Node
  | 0, _ => .fuelOut
  | fuel + 1, st =>
    match lookahead tks st with
    | none => .crash st.pos
    | some tok =>
      if tok.2 = "(" then
        pbind (pmatch tks "(" st) (fun m1 st1 =>
          pbind (Args tks fuel st1) (fun a st2 =>
            pbind (pmatch tks ")" st2) (fun m2 st3 =>
              .ok (Node.mk "Var-call-prime" [m1, a, m2]) st3)))
      else
        pbind (Var_prime tks fuel st) (fun v st1 =>
          .ok (Node.mk "Var-call-prime" [v]) st1)

/-- Embeds `Parser.Args` (lines 774-780). -/
def Args (tks : List PTok) : Nat → PState → PResult Node
  | 0, _ => .fuelOut
  | fuel + 1, st =>
    match lookahead tks st with
    | none => .crash st.pos
    | some tok =>
      if tok.2 = ")" then
        .ok (Node.mk "Args" [epsilonNode]) st
      else
        pbind (Arg_list tks fuel st) (fun a st1 =>
          .ok (Node.mk "Args" [a]) st1)

/-- Embeds `Parser.Arg_list` (lines 782-786). -/
def Arg_list (tks : List PTok) : Nat → PState → PResult Node
  | 0, _ => .fuelOut
  | fuel + 1, st =>
    pbind (Expression tks fuel st) (fun e st1 =>
      pbind (Arg_list_prime tks fuel st1) (fun ap st2 =>
        .ok (Node.mk "Arg-list" [e, ap]) st2))

/-- Embeds `Parser.Arg_list_prime` (lines 789-797). -/
def Arg_list_prime (tks : List PTok) : Nat → PState → PResult Node
  | 0, _ => .fuelOut
  | fuel + 1, st =>
    match lookahead tks st with
    | none => .crash st.pos
    | some tok =>
      if tok.2 = "," then
        pbind (pmatch tks "," st) (fun m st1 =>
          pbind (Expression tks fuel st1) (fun e st2 =>
            pbind (Arg_list_prime tks fuel st2) (fun ap st3 =>
              .ok (Node.mk "Arg-list-prime" [m, e, ap]) st3)))
      else
        .ok (Node.mk "Arg-list-prime" [epsilonNode]) st

end

/-- Embeds `main`'s token-list construction (lines 816-821): flatten the
per-line groups in ascending line order and append the sentinel. -/
def mainTokens (text : String) : List PTok :=
  pyFlatten (scan (initState text)).tokensPerLine ++ [("$", "$")]

/-- Embeds `main`'s parse (lines 823-824): run `Program` from cursor 0 with
no errors. -/
def mainParse (fuel : Nat) (text : String) : PResult Node :=
  Program (mainTokens text) fuel { pos := 0, errors := [] }

/-- Observable outcome of a parse, with decidable equality: final cursor and
syntax-error list on success, the failing index of the `IndexError` on crash. -/
inductive Outcome where
  | ok (pos : Nat) (errors : List String)
  | crash (pos : Nat)
  | fuelOut
deriving DecidableEq

/-- Projects a parser result to its observable `Outcome`. -/
def outcomeOf : PResult Node → Outcome
  | .ok _ st => .ok st.pos st.errors
  | .crash p => .crash p
  | .fuelOut => .fuelOut

/-- One symbol-table insertion step: append the lexeme unless already present
(the effect of `Scanner.record_token` on `symbol_table`). -/
def insertSym (tab : List String) (lex : String) : List String :=
  if lex ∈ tab then tab else tab ++ [lex]

/-- Lexemes of the `ID` and `KEYWORD` tokens of an emission list, in order. -/
def tokensSyms (l : List (Nat × String × String)) : List String :=
  (l.filter (fun p => p.2.1 == "ID" || p.2.1 == "KEYWORD")).map (fun p => p.2.2)

/-- Frame facts shared by every scanner helper: the text is untouched, the
cursor and line number only grow, the cursor never moves past the end of the
text (unless it already was), and neither the token groups nor the symbol
table change. -/
def Keeps (s s' : SState) : Prop :=
  s'.text = s.text ∧ s.pos ≤ s'.pos ∧ s'.pos ≤ max s.pos s.text.length ∧
  s.lineno ≤ s'.lineno ∧ s'.tokensPerLine = s.tokensPerLine ∧
  s'.symbolTable = s.symbolTable

/-! ### Basic facts about `advance` and the character-run loops -/

theorem advance_eq_some {s : SState} {c : Char} (h : s.text[s.pos]? = some c) :
    advance s = (some c, { s with pos := s.pos + 1,
                                  lineno := if c = '\n' then s.lineno + 1 else s.lineno }) := by
  unfold advance
  rw [h]

theorem advance_eq_none {s : SState} (h : s.text[s.pos]? = none) :
    advance s = (none, s) := by
  unfold advance
  rw [h]

theorem peek_zero (s : SState) : peek s 0 = s.text[s.pos]? := by
  simp [peek]

theorem peek_some_lt {s : SState} {c : Char} (h : peek s 0 = some c) :
    s.pos < s.text.length := by
  rw [peek_zero] at h
  by_contra hc
  rw [List.getElem?_eq_none (by omega)] at h
  exact Option.noConfusion h

theorem drop_cons_of_peek {s : SState} {c : Char} (h : peek s 0 = some c) :
    s.text.drop s.pos = c :: s.text.drop (s.pos + 1) := by
  have hlt : s.pos < s.text.length := peek_some_lt h
  rw [peek_zero, List.getElem?_eq_getElem hlt] at h
  have hc : s.text[s.pos] = c := by injection h
  rw [List.drop_eq_getElem_cons hlt, hc]

theorem takeRun_spec (p : Char → Bool) :
    ∀ (fuel : Nat) (acc : List Char) (s : SState), s.text.length - s.pos < fuel →
      takeRun p fuel acc s =
        (acc ++ (s.text.drop s.pos).takeWhile p,
         { s with pos := s.pos + ((s.text.drop s.pos).takeWhile p).length,
                  lineno := s.lineno + List.count '\n' ((s.text.drop s.pos).takeWhile p) }) := by
  intro fuel
  induction fuel with
  | zero => intro acc s h; omega
  | succ n ih =>
    intro acc s h
    cases hp : peek s 0 with
    | none =>
      have hlen : s.text.length ≤ s.pos := by
        rw [peek_zero] at hp
        exact List.getElem?_eq_none_iff.1 hp
      have step : takeRun p (n + 1) acc s = (acc, s) := by
        rw [takeRun, hp]
      rw [step, List.drop_eq_nil_of_le hlen]
      simp
    | some c =>
      have hlt : s.pos < s.text.length := peek_some_lt hp
      have hdrop := drop_cons_of_peek hp
      have hadv : (advance s).2 =
          { s with pos := s.pos + 1,
                   lineno := if c = '\n' then s.lineno + 1 else s.lineno } := by
        rw [advance_eq_some (by rw [peek_zero] at hp; exact hp)]
      cases hpc : p c with
      | false =>
        have step : takeRun p (n + 1) acc s = (acc, s) := by
          simp only [takeRun, hp, hpc]
          simp
        rw [step, hdrop]
        simp [List.takeWhile_cons, hpc]
      | true =>
        have step : takeRun p (n + 1) acc s = takeRun p n (acc ++ [c]) (advance s).2 := by
          simp only [takeRun, hp, hpc]
          simp
        rw [step, ih (acc ++ [c]) (advance s).2 (by rw [hadv]; simp; omega)]
        rw [hadv, hdrop]
        simp only [List.takeWhile_cons, hpc, if_true]
        refine Prod.ext ?_ ?_
        · simp
        · simp only [List.length_cons, List.count_cons]
          refine SState.ext ?_ ?_ ?_ ?_ ?_ ?_ <;> simp
          · omega
          · by_cases hcn : c = '\n' <;> simp [hcn] <;> omega

theorem takeRun_wrapper (p : Char → Bool) (acc : List Char) (s : SState) :
    takeRun p (s.text.length - s.pos + 1) acc s =
      (acc ++ (s.text.drop s.pos).takeWhile p,
       { s with pos := s.pos + ((s.text.drop s.pos).takeWhile p).length,
                lineno := s.lineno + List.count '\n' ((s.text.drop s.pos).takeWhile p) }) :=
  takeRun_spec p _ acc s (by omega)

theorem takeWhile_drop_len_le (p : Char → Bool) (l : List Char) (i : Nat) :
    ((l.drop i).takeWhile p).length ≤ l.length - i := by
  have h1 : ((l.drop i).takeWhile p).length ≤ (l.drop i).length :=
    (List.takeWhile_sublist (l := l.drop i) p).length_le
  simpa using h1

theorem skip_whitespace_eq (s : SState) :
    skip_whitespace s =
      { s with
          pos := s.pos + ((s.text.drop s.pos).takeWhile (fun c => WHITESPACE_CHARS.contains c)).length,
          lineno := s.lineno +
            List.count '\n' ((s.text.drop s.pos).takeWhile (fun c => WHITESPACE_CHARS.contains c)) } := by
  unfold skip_whitespace
  rw [takeRun_wrapper]

theorem consume_line_comment_eq (s : SState) :
    consume_line_comment s =
      { s with
          pos := s.pos + ((s.text.drop s.pos).takeWhile (fun c => !(c = '\n'))).length,
          lineno := s.lineno +
            List.count '\n' ((s.text.drop s.pos).takeWhile (fun c => !(c = '\n'))) } := by
  unfold consume_line_comment
  rw [takeRun_wrapper]

theorem read_illegal_continuation_eq (s : SState) :
    read_illegal_continuation s =
      ((s.text.drop s.pos).takeWhile isIllegalCont,
       { s with pos := s.pos + ((s.text.drop s.pos).takeWhile isIllegalCont).length,
                lineno := s.lineno + List.count '\n' ((s.text.drop s.pos).takeWhile isIllegalCont) }) := by
  unfold read_illegal_continuation
  rw [takeRun_wrapper]
  simp

theorem consume_number_head_eq (s : SState) :
    consume_number_head s =
      ((s.text.drop s.pos).takeWhile pyIsDigit,
       { s with pos := s.pos + ((s.text.drop s.pos).takeWhile pyIsDigit).length,
                lineno := s.lineno + List.count '\n' ((s.text.drop s.pos).takeWhile pyIsDigit) }) := by
  unfold consume_number_head
  rw [takeRun_wrapper]
  simp

/-! ### Frame lemmas (`Keeps`) for the scanner helpers -/

theorem keeps_refl (s : SState) : Keeps s s := by
  unfold Keeps
  refine ⟨rfl, le_refl _, le_max_left _ _, le_refl _, rfl, rfl⟩

theorem keeps_trans {a b c : SState} (h1 : Keeps a b) (h2 : Keeps b c) : Keeps a c := by
  obtain ⟨t1, p1, m1, l1, k1, y1⟩ := h1
  obtain ⟨t2, p2, m2, l2, k2, y2⟩ := h2
  refine ⟨t2.trans t1, p1.trans p2, ?_, l1.trans l2, k2.trans k1, y2.trans y1⟩
  rw [t1] at m2
  omega

theorem keeps_run (s : SState) (n m : Nat) (hn : n ≤ s.text.length - s.pos) :
    Keeps s { s with pos := s.pos + n, lineno := s.lineno + m } := by
  unfold Keeps
  simp
  omega

theorem keeps_record_error (s : SState) (lex msg : String) (ln : Option Nat) :
    Keeps s (record_error s lex msg ln) := by
  unfold Keeps record_error
  simp

theorem keeps_advance (s : SState) : Keeps s (advance s).2 := by
  cases hp : s.text[s.pos]? with
  | none => rw [advance_eq_none hp]; exact keeps_refl s
  | some c =>
    have hlt : s.pos < s.text.length := by
      by_contra hc
      rw [List.getElem?_eq_none (by omega)] at hp
      exact Option.noConfusion hp
    rw [advance_eq_some hp]
    unfold Keeps
    simp
    constructor
    · omega
    · split <;> omega

theorem keeps_skip_whitespace (s : SState) : Keeps s (skip_whitespace s) := by
  rw [skip_whitespace_eq]
  exact keeps_run s _ _ (takeWhile_drop_len_le _ _ _)

theorem keeps_consume_line_comment (s : SState) : Keeps s (consume_line_comment s) := by
  rw [consume_line_comment_eq]
  exact keeps_run s _ _ (takeWhile_drop_len_le _ _ _)

theorem keeps_takeRun (p : Char → Bool) (acc : List Char) (s : SState) :
    Keeps s (takeRun p (s.text.length - s.pos + 1) acc s).2 := by
  rw [takeRun_wrapper]
  exact keeps_run s _ _ (takeWhile_drop_len_le _ _ _)

theorem keeps_consume_block_comment_go (fuel start : Nat) :
    ∀ (content : List Char) (s : SState),
      Keeps s (consume_block_comment_go fuel start content s).2 := by
  induction fuel with
  | zero => intro content s; exact keeps_refl s
  | succ n ih =>
    intro content s
    cases hp : peek s 0 with
    | none =>
      have step : consume_block_comment_go (n + 1) start content s =
          (false, record_error s ("/* " ++ clipContent content) "Open comment at EOF" (some start)) := by
        rw [consume_block_comment_go, hp]
      rw [step]
      exact keeps_record_error s _ _ _
    | some ch =>
      by_cases hstar : ch = '*' ∧ peek s 1 = some '/'
      · have step : consume_block_comment_go (n + 1) start content s =
            (true, (advance (advance s).2).2) := by
          simp only [consume_block_comment_go, hp]
          rw [if_pos hstar]
        rw [step]
        exact keeps_trans (keeps_advance s) (keeps_advance (advance s).2)
      · have step : consume_block_comment_go (n + 1) start content s =
            consume_block_comment_go n start (content ++ [ch]) (advance s).2 := by
          simp only [consume_block_comment_go, hp]
          rw [if_neg hstar]
        rw [step]
        exact keeps_trans (keeps_advance s) (ih (content ++ [ch]) (advance s).2)

theorem keeps_consume_block_comment (start : Nat) (s : SState) :
    Keeps s (consume_block_comment start s).2 :=
  keeps_consume_block_comment_go _ start [] s

theorem keeps_read_slash_sequence (s : SState) :
    Keeps s (read_slash_sequence s).2 := by
  unfold read_slash_sequence
  simp only
  split
  · exact keeps_trans (keeps_advance s)
      (keeps_trans (keeps_advance _) (keeps_consume_line_comment _))
  · split
    · exact keeps_trans (keeps_advance s)
        (keeps_trans (keeps_advance _) (keeps_consume_block_comment _ _))
    · exact keeps_advance s

theorem advance_pos_eq {s : SState} {c : Char} (h : peek s 0 = some c) :
    (advance s).2.pos = s.pos + 1 := by
  rw [peek_zero] at h
  rw [advance_eq_some h]

theorem record_error_pos (s : SState) (lex msg : String) (ln : Option Nat) :
    (record_error s lex msg ln).pos = s.pos := rfl

theorem keeps_pos_le {s s' : SState} (h : Keeps s s') : s.pos ≤ s'.pos := h.2.1

theorem read_slash_sequence_progress {s : SState} {c : Char} (h : peek s 0 = some c) :
    s.pos < (read_slash_sequence s).2.pos := by
  have h1 : (advance s).2.pos = s.pos + 1 := advance_pos_eq h
  unfold read_slash_sequence
  simp only
  split
  · show s.pos < (consume_line_comment (advance (advance s).2).2).pos
    have k1 := keeps_pos_le (keeps_advance (advance s).2)
    have k2 := keeps_pos_le (keeps_consume_line_comment (advance (advance s).2).2)
    omega
  · split
    · show s.pos < (consume_block_comment s.lineno (advance (advance s).2).2).2.pos
      have k1 := keeps_pos_le (keeps_advance (advance s).2)
      have k2 := keeps_pos_le (keeps_consume_block_comment s.lineno (advance (advance s).2).2)
      omega
    · show s.pos < (advance s).2.pos
      omega

theorem detect_stray_spec (s : SState) :
    Keeps s (detect_stray_closing_comment s).2 ∧
    ((detect_stray_closing_comment s).1 = false → (detect_stray_closing_comment s).2 = s) ∧
    ((detect_stray_closing_comment s).1 = true → s.pos < (detect_stray_closing_comment s).2.pos) := by
  unfold detect_stray_closing_comment
  split
  · next hg =>
    refine ⟨?_, ?_, ?_⟩
    · exact keeps_trans (keeps_advance s)
        (keeps_trans (keeps_advance _) (keeps_record_error _ _ _ _))
    · intro h
      exact Bool.noConfusion h
    · intro _
      have h1 : (advance s).2.pos = s.pos + 1 := advance_pos_eq hg.1
      have k := keeps_pos_le (keeps_advance (advance s).2)
      show s.pos < (record_error (advance (advance s).2).2
        (String.mk ((advance s).1.toList ++ (advance (advance s).2).1.toList))
        "Stray closing comment" (some s.lineno)).pos
      rw [record_error_pos]
      omega
  · exact ⟨keeps_refl s, fun _ => rfl, fun h => Bool.noConfusion h⟩

theorem isIdentCont_of_head {c : Char} (h : pyIsAlpha c ∨ c = '_') :
    isIdentCont c = true := by
  unfold isIdentCont pyIsAlnum
  rcases h with h | h
  · simp [h]
  · simp [h]

theorem takeWhile_len_pos_of_head {p : Char → Bool} {s : SState} {c : Char}
    (hp : peek s 0 = some c) (hpc : p c = true) :
    1 ≤ ((s.text.drop s.pos).takeWhile p).length := by
  rw [drop_cons_of_peek hp]
  simp [List.takeWhile_cons, hpc]

theorem read_identifier_head_no_head {s : SState}
    (h : ∀ c, peek s 0 = some c → ¬(pyIsAlpha c ∨ c = '_')) :
    read_identifier_head s = (none, s) := by
  cases hp : peek s 0 with
  | none => simp only [read_identifier_head, hp]
  | some c =>
    simp only [read_identifier_head, hp]
    rw [if_neg (h c hp)]

theorem read_identifier_head_of_head {s : SState} {c : Char}
    (hp : peek s 0 = some c) (hα : pyIsAlpha c ∨ c = '_') :
    read_identifier_head s =
      (some ((s.text.drop s.pos).takeWhile isIdentCont),
       { s with pos := s.pos + ((s.text.drop s.pos).takeWhile isIdentCont).length,
                lineno := s.lineno + List.count '\n' ((s.text.drop s.pos).takeWhile isIdentCont) }) := by
  simp only [read_identifier_head, hp]
  rw [if_pos hα, takeRun_wrapper]
  simp

theorem scan_identifier_no_head {s : SState}
    (h : ∀ c, peek s 0 = some c → ¬(pyIsAlpha c ∨ c = '_')) :
    scan_identifier s = (none, s) := by
  simp only [scan_identifier, read_identifier_head_no_head h]

/-- Closed form of `scan_identifier` when the cursor is at a letter or
underscore; the `bad` discriminator and the two outcomes mirror the source. -/
theorem scan_identifier_of_head {s : SState} {c : Char}
    (hp : peek s 0 = some c) (hα : pyIsAlpha c ∨ c = '_') :
    scan_identifier s =
      (let run := (s.text.drop s.pos).takeWhile isIdentCont
       let s1 : SState := { s with pos := s.pos + run.length,
                                   lineno := s.lineno + List.count '\n' run }
       let bad := match peek s1 0 with
         | none => false
         | some nxt => !(is_whitespace nxt) && !(is_symbol nxt)
       if bad then
         let chunk := (s1.text.drop s1.pos).takeWhile isIllegalCont
         (some .error,
          record_error { s1 with pos := s1.pos + chunk.length,
                                 lineno := s1.lineno + List.count '\n' chunk }
            (String.mk (run ++ chunk)) "Illegal character" (some s.lineno))
       else if String.mk run ∈ KEYWORDS then (some (.tok "KEYWORD" (String.mk run)), s1)
       else (some (.tok "ID" (String.mk run)), s1)) := by
  simp only [scan_identifier, read_identifier_head_of_head hp hα, read_illegal_continuation_eq]

theorem scan_identifier_spec (s : SState) :
    Keeps s (scan_identifier s).2 ∧
    ((scan_identifier s).1 = none → (scan_identifier s).2 = s) ∧
    ((scan_identifier s).1.isSome → s.pos < (scan_identifier s).2.pos) := by
  by_cases hh : ∀ c, peek s 0 = some c → ¬(pyIsAlpha c ∨ c = '_')
  · rw [scan_identifier_no_head hh]
    exact ⟨keeps_refl s, fun _ => rfl, fun hs => Bool.noConfusion hs⟩
  · push_neg at hh
    obtain ⟨c, hp, hα⟩ := hh
    rw [scan_identifier_of_head hp hα]
    have hlen1 : 1 ≤ ((s.text.drop s.pos).takeWhile isIdentCont).length :=
      takeWhile_len_pos_of_head hp (isIdentCont_of_head hα)
    have hkeep1 : Keeps s { s with
        pos := s.pos + ((s.text.drop s.pos).takeWhile isIdentCont).length,
        lineno := s.lineno + List.count '\n' ((s.text.drop s.pos).takeWhile isIdentCont) } :=
      keeps_run s _ _ (takeWhile_drop_len_le _ _ _)
    simp only
    split
    · refine ⟨?_, fun hnone => Option.noConfusion hnone, fun _ => ?_⟩
      · exact keeps_trans hkeep1
          (keeps_trans (keeps_run _ _ _ (takeWhile_drop_len_le _ _ _))
            (keeps_record_error _ _ _ _))
      · rw [record_error_pos]
        show s.pos < s.pos + ((s.text.drop s.pos).takeWhile isIdentCont).length + _
        omega
    · split
      · exact ⟨hkeep1, fun hnone => Option.noConfusion hnone, fun _ => by show s.pos < s.pos + _; omega⟩
      · exact ⟨hkeep1, fun hnone => Option.noConfusion hnone, fun _ => by show s.pos < s.pos + _; omega⟩

theorem read_number_no_head {s : SState}
    (h : ∀ c, peek s 0 = some c → pyIsDigit c = false) :
    read_number s = (none, s) := by
  cases hp : peek s 0 with
  | none => simp only [read_number, hp]
  | some c =>
    simp only [read_number, hp]
    rw [if_neg]
    simp [h c hp]

/-- Closed form of `read_number` when the cursor is at a digit; the three
branches (trailing letter or underscore, leading zero, valid numeral) mirror
the source. -/
theorem read_number_of_head {s : SState} {c : Char}
    (hp : peek s 0 = some c) (hd : pyIsDigit c = true) :
    read_number s =
      (let run := (s.text.drop s.pos).takeWhile pyIsDigit
       let s1 : SState := { s with pos := s.pos + run.length,
                                   lineno := s.lineno + List.count '\n' run }
       let bad := match peek s1 0 with
         | none => false
         | some d => pyIsAlpha d || d = '_'
       if bad then
         let ext := (s1.text.drop s1.pos).takeWhile isIdentCont
         (some .error,
          record_error { s1 with pos := s1.pos + ext.length,
                                 lineno := s1.lineno + List.count '\n' ext }
            (String.mk (run ++ ext)) "Malformed number" (some s.lineno))
       else if run.length > 1 ∧ run.head? = some '0' then
         (some .error, record_error s1 (String.mk run) "Malformed number" (some s.lineno))
       else (some (.tok "NUM" (String.mk run)), s1)) := by
  simp only [read_number, hp]
  rw [if_pos hd]
  simp only [consume_number_head_eq]
  simp only [takeRun_spec, Nat.lt_succ_self]

theorem read_number_spec (s : SState) :
    Keeps s (read_number s).2 ∧
    ((read_number s).1 = none → (read_number s).2 = s) ∧
    ((read_number s).1.isSome → s.pos < (read_number s).2.pos) := by
  by_cases hh : ∀ c, peek s 0 = some c → pyIsDigit c = false
  · rw [read_number_no_head hh]
    exact ⟨keeps_refl s, fun _ => rfl, fun hs => Bool.noConfusion hs⟩
  · push_neg at hh
    obtain ⟨c, hp, hα⟩ := hh
    have hd : pyIsDigit c = true := by
      cases hv : pyIsDigit c
      · exact absurd hv hα
      · rfl
    rw [read_number_of_head hp hd]
    have hlen1 : 1 ≤ ((s.text.drop s.pos).takeWhile pyIsDigit).length :=
      takeWhile_len_pos_of_head hp hd
    have hkeep1 : Keeps s { s with
        pos := s.pos + ((s.text.drop s.pos).takeWhile pyIsDigit).length,
        lineno := s.lineno + List.count '\n' ((s.text.drop s.pos).takeWhile pyIsDigit) } :=
      keeps_run s _ _ (takeWhile_drop_len_le _ _ _)
    simp only
    split
    · refine ⟨?_, fun hnone => Option.noConfusion hnone, fun _ => ?_⟩
      · exact keeps_trans hkeep1
          (keeps_trans (keeps_run _ _ _ (takeWhile_drop_len_le _ _ _))
            (keeps_record_error _ _ _ _))
      · rw [record_error_pos]
        show s.pos < s.pos + ((s.text.drop s.pos).takeWhile pyIsDigit).length + _
        omega
    · split
      · refine ⟨?_, fun hnone => Option.noConfusion hnone, fun _ => ?_⟩
        · exact keeps_trans hkeep1 (keeps_record_error _ _ _ _)
        · rw [record_error_pos]
          show s.pos < s.pos + _
          omega
      · exact ⟨hkeep1, fun hnone => Option.noConfusion hnone, fun _ => by show s.pos < s.pos + _; omega⟩

theorem read_symbol_spec (s : SState) :
    Keeps s (read_symbol s).2 ∧
    ((read_symbol s).1 = none → (read_symbol s).2 = s) ∧
    ((read_symbol s).1.isSome → s.pos < (read_symbol s).2.pos) := by
  cases hp : peek s 0 with
  | none =>
    simp only [read_symbol, hp]
    exact ⟨keeps_refl s, by simp, by simp⟩
  | some c =>
    have h1 : (advance s).2.pos = s.pos + 1 := advance_pos_eq hp
    simp only [read_symbol, hp]
    split
    · split
      · have k1 := keeps_advance s
        have k2 := keeps_pos_le (keeps_advance (advance s).2)
        refine ⟨keeps_trans k1 (keeps_advance _), by simp, fun _ => ?_⟩
        show s.pos < (advance (advance s).2).2.pos
        omega
      · refine ⟨keeps_advance s, by simp, fun _ => ?_⟩
        show s.pos < (advance s).2.pos
        omega
    · split
      · refine ⟨keeps_advance s, by simp, fun _ => ?_⟩
        show s.pos < (advance s).2.pos
        omega
      · exact ⟨keeps_refl s, by simp, by simp⟩

theorem read_illegal_spec (s : SState) :
    Keeps s (read_illegal s).2 ∧
    (∀ c, peek s 0 = some c → s.pos < (read_illegal s).2.pos) := by
  cases hp : s.text[s.pos]? with
  | none =>
    have hb := advance_eq_none hp
    simp only [read_illegal, hb]
    refine ⟨keeps_refl s, fun c hc => ?_⟩
    rw [peek_zero] at hc
    rw [hp] at hc
    exact Option.noConfusion hc
  | some c =>
    have hb := advance_eq_some hp
    simp only [read_illegal, hb]
    refine ⟨keeps_trans (keeps_advance s) ?_, fun d hd => ?_⟩
    · rw [hb]
      exact keeps_record_error _ _ _ _
    · rw [record_error_pos]
      simp

theorem next_token_spec (s : SState) :
    Keeps s (next_token s).2 ∧
    ((next_token s).1 = none → s.text.length ≤ (next_token s).2.pos) ∧
    ((next_token s).1.isSome → s.pos < (next_token s).2.pos) := by
  have k0 : Keeps s (skip_whitespace s) := keeps_skip_whitespace s
  have ktext : (skip_whitespace s).text = s.text := k0.1
  cases hp : peek (skip_whitespace s) 0 with
  | none =>
    simp only [next_token, hp]
    refine ⟨k0, fun _ => ?_, fun hs => Bool.noConfusion hs⟩
    rw [peek_zero] at hp
    have h2 := List.getElem?_eq_none_iff.1 hp
    rw [ktext] at h2
    show s.text.length ≤ (skip_whitespace s).pos
    omega
  | some c =>
    simp only [next_token, hp]
    split
    · -- slash branch
      refine ⟨keeps_trans k0 (keeps_read_slash_sequence _), fun hc => Option.noConfusion hc,
        fun _ => ?_⟩
      have h2 := read_slash_sequence_progress hp
      have h3 := keeps_pos_le k0
      show s.pos < (read_slash_sequence (skip_whitespace s)).2.pos
      omega
    · -- not slash
      obtain ⟨ks, kfalse, ktrue⟩ := detect_stray_spec (skip_whitespace s)
      split
      · next hstray =>
        refine ⟨keeps_trans k0 ks, fun hc => Option.noConfusion hc, fun _ => ?_⟩
        have h2 := ktrue hstray
        have h3 := keeps_pos_le k0
        show s.pos < (detect_stray_closing_comment (skip_whitespace s)).2.pos
        omega
      · next hstray =>
        have hsf : (detect_stray_closing_comment (skip_whitespace s)).1 = false := by
          cases hv : (detect_stray_closing_comment (skip_whitespace s)).1
          · rfl
          · exact absurd hv hstray
        rw [kfalse hsf]
        obtain ⟨ki, kinone, kisome⟩ := scan_identifier_spec (skip_whitespace s)
        split
        · next r s2 heq =>
          have hr1 : (scan_identifier (skip_whitespace s)).1 = some r := by rw [heq]
          have hr2 : (scan_identifier (skip_whitespace s)).2 = s2 := by rw [heq]
          refine ⟨keeps_trans k0 (hr2 ▸ ki), fun hc => Option.noConfusion hc, fun _ => ?_⟩
          have h4 := kisome (by rw [hr1]; rfl)
          have h5 := keeps_pos_le k0
          rw [hr2] at h4
          show s.pos < s2.pos
          omega
        · next s2 heq =>
          have hr2 : (scan_identifier (skip_whitespace s)).2 = s2 := by rw [heq]
          have hs2 : s2 = skip_whitespace s := by
            rw [← hr2]
            exact kinone (by rw [heq])
          subst hs2
          obtain ⟨kn, knnone, knsome⟩ := read_number_spec (skip_whitespace s)
          split
          · next r s3 heq3 =>
            have hr1 : (read_number (skip_whitespace s)).1 = some r := by rw [heq3]
            have hr2 : (read_number (skip_whitespace s)).2 = s3 := by rw [heq3]
            refine ⟨keeps_trans k0 (hr2 ▸ kn), fun hc => Option.noConfusion hc, fun _ => ?_⟩
            have h4 := knsome (by rw [hr1]; rfl)
            have h5 := keeps_pos_le k0
            rw [hr2] at h4
            show s.pos < s3.pos
            omega
          · next s3 heq3 =>
            have hr2 : (read_number (skip_whitespace s)).2 = s3 := by rw [heq3]
            have hs3 : s3 = skip_whitespace s := by
              rw [← hr2]
              exact knnone (by rw [heq3])
            subst hs3
            obtain ⟨ky, kynone, kysome⟩ := read_symbol_spec (skip_whitespace s)
            split
            · next r s4 heq4 =>
              have hr1 : (read_symbol (skip_whitespace s)).1 = some r := by rw [heq4]
              have hr2 : (read_symbol (skip_whitespace s)).2 = s4 := by rw [heq4]
              refine ⟨keeps_trans k0 (hr2 ▸ ky), fun hc => Option.noConfusion hc, fun _ => ?_⟩
              have h4 := kysome (by rw [hr1]; rfl)
              have h5 := keeps_pos_le k0
              rw [hr2] at h4
              show s.pos < s4.pos
              omega
            · next s4 heq4 =>
              have hr2 : (read_symbol (skip_whitespace s)).2 = s4 := by rw [heq4]
              have hs4 : s4 = skip_whitespace s := by
                rw [← hr2]
                exact kynone (by rw [heq4])
              subst hs4
              obtain ⟨kg, kgsome⟩ := read_illegal_spec (skip_whitespace s)
              refine ⟨keeps_trans k0 kg, fun hc => Option.noConfusion hc, fun _ => ?_⟩
              have h4 := kgsome c hp
              have h5 := keeps_pos_le k0
              show s.pos < (read_illegal (skip_whitespace s)).2.pos
              omega

/-! ### The scan loop: termination with full consumption (C8) -/

theorem record_token_frame (s : SState) (t l : String) :
    (record_token s t l).text = s.text ∧ (record_token s t l).pos = s.pos ∧
    (record_token s t l).lineno = s.lineno ∧
    (record_token s t l).tokensPerLine = s.tokensPerLine ++ [(s.lineno, t, l)] ∧
    (record_token s t l).errors = s.errors := by
  simp only [record_token]
  split <;> simp

theorem scan_go_pos : ∀ (fuel : Nat) (s : SState), s.pos ≤ s.text.length →
    s.text.length - s.pos < fuel → (scan_go fuel s).pos = s.text.length := by
  intro fuel
  induction fuel with
  | zero => intro s h1 h2; omega
  | succ n ih =>
    intro s h1 h2
    obtain ⟨k, knone, ksome⟩ := next_token_spec s
    cases hr : next_token s with
    | mk res s1 =>
      rw [hr] at k knone ksome
      have htext : s1.text = s.text := k.1
      have hmax : s1.pos ≤ max s.pos s.text.length := k.2.2.1
      cases res with
      | none =>
        have step : scan_go (n + 1) s = s1 := by rw [scan_go, hr]
        rw [step]
        have h3 : s.text.length ≤ s1.pos := knone rfl
        omega
      | some r =>
        have hstrict : s.pos < s1.pos := ksome rfl
        have h1' : s1.pos ≤ s1.text.length := by rw [htext]; omega
        have h2' : s1.text.length - s1.pos < n := by rw [htext]; omega
        cases r with
        | comment =>
          have step : scan_go (n + 1) s = scan_go n s1 := by rw [scan_go, hr]
          rw [step, ih s1 h1' h2', htext]
        | error =>
          have step : scan_go (n + 1) s = scan_go n s1 := by rw [scan_go, hr]
          rw [step, ih s1 h1' h2', htext]
        | tok t l =>
          have step : scan_go (n + 1) s = scan_go n (record_token s1 t l) := by
            rw [scan_go, hr]
          obtain ⟨f1, f2, _, _, _⟩ := record_token_frame s1 t l
          rw [step, ih (record_token s1 t l) (by rw [f1, f2]; exact h1')
            (by rw [f1, f2]; exact h2'), f1, htext]

/-! ### The symbol table invariant (C6) -/

theorem tokensSyms_append (l1 l2 : List (Nat × String × String)) :
    tokensSyms (l1 ++ l2) = tokensSyms l1 ++ tokensSyms l2 := by
  unfold tokensSyms
  rw [List.filter_append, List.map_append]

theorem record_token_symtab (s : SState) (t l : String) (K : List String)
    (h : s.symbolTable = (tokensSyms s.tokensPerLine).foldl insertSym K) :
    (record_token s t l).symbolTable =
      (tokensSyms (record_token s t l).tokensPerLine).foldl insertSym K := by
  obtain ⟨_, _, _, htpl, _⟩ := record_token_frame s t l
  rw [htpl, tokensSyms_append]
  by_cases hk : t = "ID" ∨ t = "KEYWORD"
  · have hsingle : tokensSyms [(s.lineno, t, l)] = [l] := by
      unfold tokensSyms
      rcases hk with hk | hk <;> simp [hk]
    rw [hsingle, List.foldl_append, ← h]
    show (record_token s t l).symbolTable = List.foldl insertSym s.symbolTable [l]
    simp only [List.foldl_cons, List.foldl_nil]
    unfold record_token insertSym
    by_cases hmem : l ∈ s.symbolTable
    · rw [if_neg (by simp [hmem]), if_pos hmem]
    · rw [if_pos (by exact ⟨hk, hmem⟩), if_neg hmem]
  · have hsingle : tokensSyms [(s.lineno, t, l)] = [] := by
      unfold tokensSyms
      push_neg at hk
      simp [hk.1, hk.2]
    rw [hsingle, List.append_nil, ← h]
    unfold record_token
    rw [if_neg (by simp; intro hc; exact absurd hc hk)]

theorem scan_go_symtab (K : List String) : ∀ (fuel : Nat) (s : SState),
    s.symbolTable = (tokensSyms s.tokensPerLine).foldl insertSym K →
    (scan_go fuel s).symbolTable =
      (tokensSyms (scan_go fuel s).tokensPerLine).foldl insertSym K := by
  intro fuel
  induction fuel with
  | zero => intro s h; exact h
  | succ n ih =>
    intro s h
    obtain ⟨k, _, _⟩ := next_token_spec s
    cases hr : next_token s with
    | mk res s1 =>
      rw [hr] at k
      have htok : s1.tokensPerLine = s.tokensPerLine := k.2.2.2.2.1
      have hsym : s1.symbolTable = s.symbolTable := k.2.2.2.2.2
      have h1 : s1.symbolTable = (tokensSyms s1.tokensPerLine).foldl insertSym K := by
        rw [htok, hsym, h]
      cases res with
      | none =>
        have step : scan_go (n + 1) s = s1 := by rw [scan_go, hr]
        rw [step]
        exact h1
      | some r =>
        cases r with
        | comment =>
          have step : scan_go (n + 1) s = scan_go n s1 := by rw [scan_go, hr]
          rw [step]
          exact ih s1 h1
        | error =>
          have step : scan_go (n + 1) s = scan_go n s1 := by rw [scan_go, hr]
          rw [step]
          exact ih s1 h1
        | tok t l =>
          have step : scan_go (n + 1) s = scan_go n (record_token s1 t l) := by
            rw [scan_go, hr]
          rw [step]
          exact ih _ (record_token_symtab s1 t l K h1)

theorem insertSym_nodup {tab : List String} (h : tab.Nodup) (l : String) :
    (insertSym tab l).Nodup := by
  unfold insertSym
  split
  · exact h
  · next hmem =>
    rw [List.nodup_append]
    refine ⟨h, List.nodup_singleton l, ?_⟩
    intro x hx hxl
    simp at hxl
    subst hxl
    exact hmem hx

theorem foldl_insertSym_nodup : ∀ (ls tab : List String), tab.Nodup →
    (ls.foldl insertSym tab).Nodup := by
  intro ls
  induction ls with
  | nil => intro tab h; exact h
  | cons x xs ih =>
    intro tab h
    rw [List.foldl_cons]
    exact ih _ (insertSym_nodup h x)

theorem foldl_insertSym_extends : ∀ (ls tab : List String),
    ∃ rest, ls.foldl insertSym tab = tab ++ rest := by
  intro ls
  induction ls with
  | nil => intro tab; exact ⟨[], by simp⟩
  | cons x xs ih =>
    intro tab
    rw [List.foldl_cons]
    by_cases h : x ∈ tab
    · have hins : insertSym tab x = tab := by unfold insertSym; rw [if_pos h]
      rw [hins]
      exact ih tab
    · have hins : insertSym tab x = tab ++ [x] := by unfold insertSym; rw [if_neg h]
      rw [hins]
      obtain ⟨r, hr⟩ := ih (tab ++ [x])
      exact ⟨x :: r, by rw [hr, List.append_assoc]; rfl⟩

/-! ### Faithfulness of the token flattening (C7) -/

theorem maxKey_cons (x : Nat × String × String) (xs : List (Nat × String × String)) :
    maxKey (x :: xs) = max x.1 (maxKey xs) := rfl

theorem le_maxKey : ∀ (l : List (Nat × String × String)), ∀ p ∈ l, p.1 ≤ maxKey l := by
  intro l
  induction l with
  | nil => intro p hp; exact absurd hp (List.not_mem_nil p)
  | cons x xs ih =>
    intro p hp
    rw [maxKey_cons]
    rcases List.mem_cons.1 hp with h | h
    · subst h; omega
    · have := ih p h; omega

theorem maxKey_le {l : List (Nat × String × String)} {k : Nat}
    (h : ∀ p ∈ l, p.1 ≤ k) : maxKey l ≤ k := by
  induction l with
  | nil => simp [maxKey]
  | cons x xs ih =>
    rw [maxKey_cons]
    have h1 := h x (by simp)
    have h2 := ih (fun p hp => h p (by simp [hp]))
    omega

theorem maxKey_mem : ∀ (l : List (Nat × String × String)), l ≠ [] →
    ∃ p ∈ l, p.1 = maxKey l := by
  intro l
  induction l with
  | nil => intro h; exact absurd rfl h
  | cons x xs ih =>
    intro _
    by_cases hx : xs = []
    · subst hx
      exact ⟨x, by simp, by rw [maxKey_cons]; simp [maxKey]⟩
    · obtain ⟨p, hp, hpk⟩ := ih hx
      by_cases hcmp : maxKey xs ≤ x.1
      · exact ⟨x, by simp, by rw [maxKey_cons]; omega⟩
      · refine ⟨p, by simp [hp], by rw [maxKey_cons]; omega⟩

theorem filter_range_eq (a b : Nat) (p : Nat → Bool) (hab : a ≤ b)
    (hp : ∀ x, p x = true → x < a) :
    (List.range b).filter p = (List.range a).filter p := by
  induction b, hab using Nat.le_induction with
  | base => rfl
  | succ n hn ih =>
    rw [List.range_succ, List.filter_append, ih]
    have hn2 : p n = false := by
      cases hpn : p n
      · rfl
      · exact absurd (hp n hpn) (by omega)
    simp [hn2]

theorem flatMap_congr_mem {A : List Nat} {f g : Nat → List (String × String)}
    (h : ∀ x ∈ A, f x = g x) : A.flatMap f = A.flatMap g := by
  induction A with
  | nil => rfl
  | cons a as ih =>
    rw [List.flatMap_cons, List.flatMap_cons, h a (by simp),
      ih (fun x hx => h x (by simp [hx]))]

theorem filter_key_nil {l : List (Nat × String × String)} {k : Nat}
    (h : l.any (fun p => p.1 == k) = false) :
    l.filter (fun p => p.1 == k) = [] := by
  rw [List.filter_eq_nil_iff]
  intro p hp
  intro hk
  have : l.any (fun p => p.1 == k) = true := List.any_eq_true.2 ⟨p, hp, hk⟩
  rw [h] at this
  exact Bool.noConfusion this

theorem pyFlatten_append (l : List (Nat × String × String)) (k : Nat) (t : String × String)
    (hk : ∀ p ∈ l, p.1 ≤ k) :
    pyFlatten (l ++ [(k, t)]) = pyFlatten l ++ [t] := by
  have hmaxle : maxKey l ≤ k := maxKey_le hk
  have hmax : maxKey (l ++ [(k, t)]) = k := by
    have : ∀ p ∈ l ++ [(k, t)], p.1 ≤ k := by
      intro p hp
      rcases List.mem_append.1 hp with h | h
      · exact hk p h
      · simp at h
        subst h
        simp
    have h1 := maxKey_le this
    have h2 := le_maxKey (l ++ [(k, t)]) (k, t) (by simp)
    omega
  have hmem_k : (l ++ [(k, t)]).any (fun p => p.1 == k) = true := by
    rw [List.any_append]
    simp
  have hfilter_eq : ∀ x, x < k →
      ((l ++ [(k, t)]).any (fun p => p.1 == x)) = (l.any (fun p => p.1 == x)) := by
    intro x hx
    rw [List.any_append]
    have : ((k, t).1 == x) = false := by simp; omega
    simp [this]
  have hgroup_eq : ∀ x, x < k →
      ((l ++ [(k, t)]).filter (fun p => p.1 == x)) = (l.filter (fun p => p.1 == x)) := by
    intro x hx
    rw [List.filter_append]
    have : ((k, t).1 == x) = false := by simp; omega
    simp [List.filter_cons, this]
  have hgroup_k : ((l ++ [(k, t)]).filter (fun p => p.1 == k)) =
      (l.filter (fun p => p.1 == k)) ++ [(k, t)] := by
    rw [List.filter_append]
    simp
  unfold pyFlatten sortedLineKeys
  rw [hmax, List.range_succ, List.filter_append]
  have hk_in : (List.filter (fun x => (l ++ [(k, t)]).any (fun p => p.1 == x)) [k]) = [k] := by
    simp [List.filter_cons, hmem_k]
  rw [hk_in, List.flatMap_append]
  have hfront : (List.filter (fun x => (l ++ [(k, t)]).any (fun p => p.1 == x)) (List.range k)) =
      (List.filter (fun x => l.any (fun p => p.1 == x)) (List.range k)) := by
    apply List.filter_congr
    intro x hx
    exact hfilter_eq x (List.mem_range.1 hx)
  rw [hfront]
  have hmaps : ((List.range k).filter (fun x => l.any (fun p => p.1 == x))).flatMap
        (fun x => ((l ++ [(k, t)]).filter (fun p => p.1 == x)).map (fun p => p.2)) =
      ((List.range k).filter (fun x => l.any (fun p => p.1 == x))).flatMap
        (fun x => (l.filter (fun p => p.1 == x)).map (fun p => p.2)) := by
    apply flatMap_congr_mem
    intro x hx
    have hxk : x < k := List.mem_range.1 (List.mem_filter.1 hx).1
    rw [hgroup_eq x hxk]
  rw [hmaps]
  have hlast : (([k] : List Nat).flatMap (fun x =>
      ((l ++ [(k, t)]).filter (fun p => p.1 == x)).map (fun p => p.2))) =
      (l.filter (fun p => p.1 == k)).map (fun p => p.2) ++ [t] := by
    simp only [List.flatMap_cons, List.flatMap_nil, List.append_nil]
    rw [hgroup_k, List.map_append]
    rfl
  rw [hlast]
  by_cases hany : l.any (fun p => p.1 == k) = true
  · -- the key `k` already occurs in `l`
    have hmaxl : maxKey l = k := by
      obtain ⟨p, hp, hpk⟩ := List.any_eq_true.1 hany
      have : p.1 = k := by simpa using hpk
      have h1 := le_maxKey l p hp
      omega
    rw [hmaxl, List.range_succ, List.filter_append]
    have hk_in2 : (List.filter (fun x => l.any (fun p => p.1 == x)) [k]) = [k] := by
      simp [List.filter_cons, hany]
    rw [hk_in2, List.flatMap_append]
    simp only [List.flatMap_cons, List.flatMap_nil, List.append_nil]
    rw [List.append_assoc]
  · -- the key `k` is new
    have hany' : l.any (fun p => p.1 == k) = false := by
      cases hv : l.any (fun p => p.1 == k)
      · rfl
      · exact absurd hv hany
    rw [filter_key_nil hany']
    simp only [List.map_nil, List.nil_append]
    by_cases hnil : l = []
    · subst hnil
      simp [maxKey]
    · have hmaxlt : maxKey l < k := by
        obtain ⟨p, hp, hpk⟩ := maxKey_mem l hnil
        have : p.1 ≤ k := hk p hp
        have hne : maxKey l ≠ k := by
          intro hcon
          have : l.any (fun q => q.1 == k) = true :=
            List.any_eq_true.2 ⟨p, hp, by simp [hpk, hcon]⟩
          rw [hany'] at this
          exact Bool.noConfusion this
        omega
      have := filter_range_eq (maxKey l + 1) k (fun x => l.any (fun p => p.1 == x))
        (by omega) ?_
      · rw [this]
      · intro x hx
        obtain ⟨p, hp, hpk⟩ := List.any_eq_true.1 hx
        have hpx : p.1 = x := by simpa using hpk
        have := le_maxKey l p hp
        omega

theorem scan_go_flatten : ∀ (fuel : Nat) (s : SState),
    pyFlatten s.tokensPerLine = s.tokensPerLine.map (fun p => p.2) →
    (∀ p ∈ s.tokensPerLine, p.1 ≤ s.lineno) →
    pyFlatten (scan_go fuel s).tokensPerLine =
      (scan_go fuel s).tokensPerLine.map (fun p => p.2) := by
  intro fuel
  induction fuel with
  | zero => intro s h1 _; exact h1
  | succ n ih =>
    intro s h1 h2
    obtain ⟨k, _, _⟩ := next_token_spec s
    cases hr : next_token s with
    | mk res s1 =>
      rw [hr] at k
      have htok : s1.tokensPerLine = s.tokensPerLine := k.2.2.2.2.1
      have hline : s.lineno ≤ s1.lineno := k.2.2.2.1
      have h1' : pyFlatten s1.tokensPerLine = s1.tokensPerLine.map (fun p => p.2) := by
        rw [htok]; exact h1
      have h2' : ∀ p ∈ s1.tokensPerLine, p.1 ≤ s1.lineno := by
        rw [htok]
        intro p hp
        have := h2 p hp
        omega
      cases res with
      | none =>
        have step : scan_go (n + 1) s = s1 := by rw [scan_go, hr]
        rw [step]
        exact h1'
      | some r =>
        cases r with
        | comment =>
          have step : scan_go (n + 1) s = scan_go n s1 := by rw [scan_go, hr]
          rw [step]
          exact ih s1 h1' h2'
        | error =>
          have step : scan_go (n + 1) s = scan_go n s1 := by rw [scan_go, hr]
          rw [step]
          exact ih s1 h1' h2'
        | tok t l =>
          have step : scan_go (n + 1) s = scan_go n (record_token s1 t l) := by
            rw [scan_go, hr]
          rw [step]
          obtain ⟨_, _, hln, htpl, _⟩ := record_token_frame s1 t l
          refine ih _ ?_ ?_
          · rw [htpl, List.map_append, pyFlatten_append _ _ _ h2', h1']
            simp
          · rw [htpl, hln]
            intro p hp
            rcases List.mem_append.1 hp with h | h
            · exact h2' p h
            · simp at h
              subst h
              simp

theorem count_newline_zero {p : Char → Bool} (hp : p '\n' = false) (l : List Char) :
    List.count '\n' (l.takeWhile p) = 0 := by
  rw [List.count_eq_zero]
  intro hmem
  have h2 := List.mem_takeWhile_imp hmem
  rw [hp] at h2
  exact Bool.noConfusion h2

/-- Closed form of `consume_block_comment_go` when no `*/` occurs at or after
the cursor: the loop swallows the rest of the text and records a single
`Open comment at EOF` error anchored at `start`. -/
theorem consume_block_comment_noclose :
    ∀ (fuel start : Nat) (content : List Char) (s : SState),
      s.text.length - s.pos < fuel → s.pos ≤ s.text.length →
      (∀ i, s.pos ≤ i → ¬(s.text[i]? = some '*' ∧ s.text[i + 1]? = some '/')) →
      consume_block_comment_go fuel start content s =
        (false, record_error
          { s with pos := s.text.length,
                   lineno := s.lineno + List.count '\n' (s.text.drop s.pos) }
          ("/* " ++ clipContent (content ++ s.text.drop s.pos)) "Open comment at EOF"
          (some start)) := by
  intro fuel
  induction fuel with
  | zero => intro start content s h1 h2 h3; omega
  | succ n ih =>
    intro start content s h1 h2 h3
    cases hp : peek s 0 with
    | none =>
      have hlen : s.text.length ≤ s.pos := by
        rw [peek_zero] at hp
        exact List.getElem?_eq_none_iff.1 hp
      have hpos : s.pos = s.text.length := by omega
      have step : consume_block_comment_go (n + 1) start content s =
          (false, record_error s ("/* " ++ clipContent content) "Open comment at EOF"
            (some start)) := by
        rw [consume_block_comment_go, hp]
      rw [step, List.drop_eq_nil_of_le hlen]
      simp [← hpos]
    | some ch =>
      have hlt : s.pos < s.text.length := peek_some_lt hp
      have hdrop := drop_cons_of_peek hp
      have hguard : ¬(ch = '*' ∧ peek s 1 = some '/') := by
        rintro ⟨hstar, hslash⟩
        refine h3 s.pos (le_refl _) ⟨?_, ?_⟩
        · rw [peek_zero] at hp
          rw [hp, hstar]
        · rw [peek] at hslash
          exact hslash
      have step : consume_block_comment_go (n + 1) start content s =
          consume_block_comment_go n start (content ++ [ch]) (advance s).2 := by
        simp only [consume_block_comment_go, hp]
        rw [if_neg hguard]
      have hadv : (advance s).2 =
          { s with pos := s.pos + 1,
                   lineno := if ch = '\n' then s.lineno + 1 else s.lineno } := by
        rw [advance_eq_some (by rw [peek_zero] at hp; exact hp)]
      rw [step, hadv]
      rw [ih start (content ++ [ch]) _ (by simp; omega) (by simp; omega) ?_]
      · simp only
        rw [hdrop]
        refine congrArg (fun z => ((false : Bool), z)) ?_
        unfold record_error
        simp only [List.count_cons, List.append_assoc, List.cons_append, List.nil_append]
        refine SState.ext rfl ?hpos ?hline rfl ?herr rfl
        case hpos => simp
        case hline =>
          simp only
          by_cases hcn : ch = '\n' <;> simp [hcn] <;> omega
        case herr => simp
      · intro i hi
        simp at hi
        exact h3 i (by omega)

/-! ### Claim theorems for the scanner -/

/-- C8 (confirmed): for every finite input text, the scan loop terminates with
the whole input consumed (the final cursor equals the text length), and every
call of `next_token` either signals end of input or strictly advances the
cursor; anomalies are recorded as lexical errors, never stopping the scan. -/
theorem c8_scan_consumes_all (text : String) :
    (scan (initState text)).pos = text.toList.length ∧
    ∀ s : SState, (next_token s).1 = none ∨ s.pos < (next_token s).2.pos := by
  constructor
  · unfold scan
    exact scan_go_pos _ (initState text) (by simp [initState]) (by simp [initState])
  · intro s
    cases hr : (next_token s).1 with
    | none => exact Or.inl rfl
    | some r => exact Or.inr ((next_token_spec s).2.2 (by rw [hr]; rfl))

/-- C6 (confirmed): the symbol table starts as exactly the 7 reserved keywords
sorted lexicographically; afterwards it is exactly the fold of the
append-if-new step over the `ID`/`KEYWORD` lexemes in emission order (so
entries are appended at first occurrence, never removed or reordered), it
never contains a duplicate, and the keyword block stays as its prefix. -/
theorem c6_symbol_table_invariant (text : String) :
    (scan (initState text)).symbolTable =
      (tokensSyms (scan (initState text)).tokensPerLine).foldl insertSym sortedKeywords ∧
    (scan (initState text)).symbolTable.Nodup ∧
    (scan (initState text)).symbolTable.take 7 = sortedKeywords ∧
    sortedKeywords = ["break", "else", "for", "if", "int", "return", "void"] := by
  have hmain : (scan (initState text)).symbolTable =
      (tokensSyms (scan (initState text)).tokensPerLine).foldl insertSym sortedKeywords := by
    unfold scan
    exact scan_go_symtab sortedKeywords _ (initState text) (by simp [initState, tokensSyms])
  have hnodup0 : sortedKeywords.Nodup := by decide
  refine ⟨hmain, ?_, ?_, by decide⟩
  · rw [hmain]
    exact foldl_insertSym_nodup _ _ hnodup0
  · rw [hmain]
    obtain ⟨rest, hr⟩ := foldl_insertSym_extends
      (tokensSyms (scan (initState text)).tokensPerLine) sortedKeywords
    rw [hr]
    have h7 : sortedKeywords.length = 7 := by decide
    rw [← h7, List.take_left]

/-- C7 (confirmed): concatenating the per-line token groups in ascending line
order (exactly what `main` does to build the token listing and the parser
input) returns the scanner's emission sequence itself: no token is
duplicated, dropped, or reordered. -/
theorem c7_flatten_faithful (text : String) :
    pyFlatten (scan (initState text)).tokensPerLine =
      (scan (initState text)).tokensPerLine.map (fun p => p.2) := by
  unfold scan
  refine scan_go_flatten _ (initState text) ?_ ?_
  · rfl
  · simp [initState]

/-- C4 (confirmed): at a digit, the scanner takes the maximal digit run; a
following letter or underscore turns the whole alphanumeric/underscore run
into a single `Malformed number` error with the combined lexeme and no token;
otherwise a multi-digit run with a leading `0` is a `Malformed number`;
otherwise a `NUM` token is emitted. -/
theorem c4_read_number (s : SState) (c : Char)
    (hc : peek s 0 = some c) (hd : pyIsDigit c = true) :
    let run := (s.text.drop s.pos).takeWhile pyIsDigit
    let after := s.text.drop (s.pos + run.length)
    let ext := after.takeWhile isIdentCont
    (∀ d, after.head? = some d → (pyIsAlpha d || d = '_') = true →
      read_number s = (some .error,
        record_error { s with pos := s.pos + run.length + ext.length }
          (String.mk (run ++ ext)) "Malformed number" (some s.lineno))) ∧
    ((∀ d, after.head? = some d → (pyIsAlpha d || d = '_') = false) →
      (run.length > 1 → run.head? = some '0' →
        read_number s = (some .error,
          record_error { s with pos := s.pos + run.length }
            (String.mk run) "Malformed number" (some s.lineno))) ∧
      (¬(run.length > 1 ∧ run.head? = some '0') →
        read_number s = (some (.tok "NUM" (String.mk run)),
          { s with pos := s.pos + run.length }))) := by
  intro run after ext
  have hrun0 : List.count '\n' run = 0 := count_newline_zero (by decide) _
  have hext0 : List.count '\n' ext = 0 := count_newline_zero (by decide) _
  have hrn := read_number_of_head hc hd
  dsimp only [] at hrn
  rw [show List.takeWhile pyIsDigit (List.drop s.pos s.text) = run from rfl] at hrn
  rw [show List.drop (s.pos + run.length) s.text = after from rfl] at hrn
  rw [show List.takeWhile isIdentCont after = ext from rfl] at hrn
  simp only [hrun0, hext0, Nat.add_zero] at hrn
  have hpeek : peek { s with pos := s.pos + run.length, lineno := s.lineno } 0 =
      after.head? := by
    show s.text[s.pos + run.length + 0]? = after.head?
    rw [List.head?_drop]
    simp
  rw [hpeek] at hrn
  constructor
  · intro d hd1 hd2
    rw [hrn, hd1]
    have hmatch : (match some d with
        | none => false
        | some d => pyIsAlpha d || decide (d = '_')) = true := by simpa using hd2
    rw [hmatch, if_pos rfl]
  · intro hgood
    have hbad : (match after.head? with
        | none => false
        | some d => pyIsAlpha d || decide (d = '_')) = false := by
      cases hv : after.head? with
      | none => rfl
      | some d => simpa using hgood d hv
    rw [hbad] at hrn
    rw [if_neg (by simp)] at hrn
    constructor
    · intro hl1 hl2
      rw [hrn, if_pos ⟨hl1, hl2⟩]
    · intro hno
      rw [hrn, if_neg hno]

/-- Witness for C4 at the concrete malformed numeral `12a3`. -/
theorem c4_read_number_witness :
    peek (initState "12a3") 0 = some '1' ∧ pyIsDigit '1' = true ∧
    read_number (initState "12a3") =
      (some .error,
       record_error { (initState "12a3") with pos := 4 } "12a3" "Malformed number" (some 1)) := by
  refine ⟨rfl, rfl, ?_⟩
  exact (c4_read_number (initState "12a3") '1' rfl rfl).1 'a' rfl rfl

/-- C9 (confirmed): at a letter or underscore, the scanner takes the maximal
letter/digit/underscore run; if the next character exists and is neither
whitespace nor a symbol, the following non-whitespace non-symbol run is
swallowed too and a single `Illegal character` error carries the combined
lexeme with no token produced; otherwise the run becomes a `KEYWORD` token
when it is a reserved word and an `ID` token otherwise. -/
theorem c9_scan_identifier (s : SState) (c : Char)
    (hc : peek s 0 = some c) (hh : pyIsAlpha c = true ∨ c = '_') :
    let run := (s.text.drop s.pos).takeWhile isIdentCont
    let after := s.text.drop (s.pos + run.length)
    let chunk := after.takeWhile isIllegalCont
    (∀ d, after.head? = some d → is_whitespace d = false → is_symbol d = false →
      scan_identifier s = (some .error,
        record_error { s with pos := s.pos + run.length + chunk.length }
          (String.mk (run ++ chunk)) "Illegal character" (some s.lineno))) ∧
    ((∀ d, after.head? = some d → (is_whitespace d || is_symbol d) = true) →
      scan_identifier s =
        (some (.tok (if String.mk run ∈ KEYWORDS then "KEYWORD" else "ID") (String.mk run)),
         { s with pos := s.pos + run.length })) := by
  intro run after chunk
  have hrun0 : List.count '\n' run = 0 := count_newline_zero (by decide) _
  have hchunk0 : List.count '\n' chunk = 0 := count_newline_zero (by decide) _
  have hrn := scan_identifier_of_head hc hh
  dsimp only [] at hrn
  rw [show List.takeWhile isIdentCont (List.drop s.pos s.text) = run from rfl] at hrn
  rw [show List.drop (s.pos + run.length) s.text = after from rfl] at hrn
  rw [show List.takeWhile isIllegalCont after = chunk from rfl] at hrn
  simp only [hrun0, hchunk0, Nat.add_zero] at hrn
  have hpeek : peek { s with pos := s.pos + run.length, lineno := s.lineno } 0 =
      after.head? := by
    show s.text[s.pos + run.length + 0]? = after.head?
    rw [List.head?_drop]
    simp
  rw [hpeek] at hrn
  constructor
  · intro d hd1 hd2 hd3
    rw [hrn, hd1]
    have hmatch : (match some d with
        | none => false
        | some d => !(is_whitespace d) && !(is_symbol d)) = true := by
      simp [hd2, hd3]
    rw [hmatch, if_pos rfl]
  · intro hgood
    have hbad : (match after.head? with
        | none => false
        | some d => !(is_whitespace d) && !(is_symbol d)) = false := by
      cases hv : after.head? with
      | none => rfl
      | some d =>
        have hgd := hgood d hv
        simp only
        cases hw : is_whitespace d with
        | true => simp
        | false =>
          rw [hw] at hgd
          simp at hgd
          simp [hgd]
    rw [hbad] at hrn
    rw [if_neg (by simp)] at hrn
    rw [hrn]
    by_cases hk : String.mk run ∈ KEYWORDS
    · rw [if_pos hk, if_pos hk]
    · rw [if_neg hk, if_neg hk]

/-- Witness for C9 at the concrete illegal identifier continuation `cde_!x`. -/
theorem c9_scan_identifier_witness :
    peek (initState "cde_!x yz") 0 = some 'c' ∧
    scan_identifier (initState "cde_!x yz") =
      (some .error,
       record_error { (initState "cde_!x yz") with pos := 6 } "cde_!x" "Illegal character"
         (some 1)) := by
  refine ⟨rfl, ?_⟩
  exact (c9_scan_identifier (initState "cde_!x yz") 'c' rfl (Or.inl rfl)).1 '!' rfl rfl rfl

/-- C5 (corrected, amended): a `/*` never followed by `*/` consumes the rest
of the input and records exactly one `Open comment at EOF` error, anchored at
the line where the `/*` began; the error's lexeme is the literal `"/* "`
followed by at most the first 7 characters of the comment body, with the
ellipsis `...` appended exactly when the body exceeds 7 characters
(`clipContent`); no token is produced and the token groups are untouched. -/
theorem c5_unterminated_comment (s : SState)
    (h1 : peek s 0 = some '/') (h2 : peek s 1 = some '*')
    (hnc : ∀ i, s.pos + 2 ≤ i → ¬(s.text[i]? = some '*' ∧ s.text[i + 1]? = some '/')) :
    let body := s.text.drop (s.pos + 2)
    read_slash_sequence s =
      (.error,
       { s with pos := s.text.length,
                lineno := s.lineno + List.count '\n' body,
                errors := s.errors ++
                  [(s.lineno, "/* " ++ clipContent body, "Open comment at EOF")] }) := by
  intro body
  have hlt1 : s.pos < s.text.length := peek_some_lt h1
  have hlt2 : s.pos + 1 < s.text.length := by
    rw [peek] at h2
    by_contra hcon
    rw [List.getElem?_eq_none (by omega)] at h2
    exact Option.noConfusion h2
  have hadv1 : (advance s).2 =
      { s with pos := s.pos + 1, lineno := s.lineno } := by
    rw [peek_zero] at h1
    rw [advance_eq_some h1]
    simp
  have hpk1 : peek (advance s).2 0 = some '*' := by
    rw [hadv1, peek]
    rw [peek] at h2
    exact h2
  unfold read_slash_sequence
  simp only [hpk1]
  rw [if_neg (by simp), if_pos trivial]
  have hadv2 : (advance (advance s).2).2 =
      { s with pos := s.pos + 2, lineno := s.lineno } := by
    rw [hadv1]
    rw [peek_zero] at hpk1
    rw [hadv1] at hpk1
    rw [advance_eq_some hpk1]
    simp
  rw [hadv2]
  unfold consume_block_comment
  rw [consume_block_comment_noclose _ s.lineno [] _
    (by show s.text.length - (s.pos + 2) < s.text.length - (s.pos + 2) + 1; omega)
    (by show s.pos + 2 ≤ s.text.length; omega)
    (by intro i hi; simp at hi; exact hnc i hi)]
  simp only [List.nil_append]
  unfold record_error
  rfl

/-- Witness for the amended C5 on the concrete input `/*x`. -/
theorem c5_unterminated_comment_witness :
    peek (initState "/*x") 0 = some '/' ∧ peek (initState "/*x") 1 = some '*' ∧
    read_slash_sequence (initState "/*x") =
      (.error,
       { (initState "/*x") with
           pos := 3,
           errors := [(1, "/* x", "Open comment at EOF")] }) := by
  refine ⟨rfl, rfl, ?_⟩
  have h := c5_unterminated_comment (initState "/*x") rfl rfl ?_
  · exact h
  · intro i hi
    rintro ⟨ha, hb⟩
    rcases Nat.lt_or_ge i 3 with h3 | h3
    · have h2 : i = 2 := by simp [initState] at hi; omega
      subst h2
      have hx : (initState "/*x").text[2]? = some 'x' := rfl
      rw [hx] at ha
      exact absurd ha (by decide)
    · have hlen : (initState "/*x").text.length = 3 := rfl
      rw [List.getElem?_eq_none (by rw [hlen]; omega)] at ha
      exact Option.noConfusion ha

/-- C5 (counterexample to the claim as stated): scanning `/* unterminated`
records the single error lexeme `"/*  unterm..."`, which carries the `"/* "`
prefix and is therefore not the body clip `" unterm..."` alone that the claim
describes. -/
theorem c5_counterexample :
    (scan (initState "/* unterminated")).errors =
      [(1, "/*  unterm...", "Open comment at EOF")] ∧
    ("/*  unterm..." : String) ≠ " unterm..." ∧
    (scan (initState "/* unterminated")).tokensPerLine = [] := by
  refine ⟨by rfl, by decide, by rfl⟩

/-! ### Claim theorems for the parser -/

/-- C2 (confirmed): when a lookahead token exists, `match` consumes it and
returns its leaf node when the lexeme agrees, advancing the cursor by exactly
one; otherwise it appends exactly `"syntax error, missing <expected>"`, returns
the synthetic `(SYMBOL, <expected>)` leaf, and leaves the cursor where it was. -/
theorem c2_match_spec (tks : List PTok) (expected : String) (st : PState)
    (h : st.pos < tks.length) :
    ((tks.get ⟨st.pos, h⟩).2 = expected →
      pmatch tks expected st =
        .ok (Node.mk ("(" ++ (tks.get ⟨st.pos, h⟩).1 ++ ", " ++ (tks.get ⟨st.pos, h⟩).2 ++ ")") [])
            { st with pos := st.pos + 1 }) ∧
    ((tks.get ⟨st.pos, h⟩).2 ≠ expected →
      pmatch tks expected st =
        .ok (Node.mk ("(SYMBOL, " ++ expected ++ ")") [])
            { st with errors := st.errors ++ ["syntax error, missing " ++ expected] }) := by
  have hl : lookahead tks st = some (tks.get ⟨st.pos, h⟩) := by
    unfold lookahead
    rw [List.getElem?_eq_getElem h]
    rfl
  constructor
  · intro heq
    unfold pmatch
    rw [hl]
    simp only
    rw [if_pos heq]
    rfl
  · intro hne
    unfold pmatch
    rw [hl]
    simp only
    rw [if_neg hne]

/-- Witness for C2: matching `;` against a `(SYMBOL, ;)` lookahead. -/
theorem c2_match_spec_witness :
    (0 : Nat) < ([(("SYMBOL" : String), (";" : String))] : List PTok).length ∧
    pmatch [("SYMBOL", ";")] ";" { pos := 0, errors := [] } =
      .ok (Node.mk "(SYMBOL, ;)" []) { pos := 1, errors := [] } := by
  refine ⟨by decide, ?_⟩
  exact (c2_match_spec [("SYMBOL", ";")] ";" { pos := 0, errors := [] } (by decide)).1 rfl

/-- C10 (confirmed): when the first token's lexeme is neither `int` nor
`void` (the end-of-input sentinel alone included), `Program` consumes nothing,
records no syntax error, and returns the fixed
`Program [Declaration-list [epsilon], $]` tree; in particular the sentinel is
not matched or consumed, and trailing tokens are ignored undiagnosed. -/
theorem c10_program_epsilon (tks : List PTok) (t : PTok) (n : Nat)
    (h1 : tks.head? = some t) (h2 : t.2 ≠ "int") (h3 : t.2 ≠ "void") :
    Program tks (n + 2) { pos := 0, errors := [] } =
      .ok (Node.mk "Program" [Node.mk "Declaration-list" [epsilonNode], Node.mk "$" []])
        { pos := 0, errors := [] } := by
  cases tks with
  | nil => exact Option.noConfusion h1
  | cons x rest =>
    have hx : x = t := by simpa using h1
    subst hx
    rw [Program, Declaration_list]
    have hl : lookahead (x :: rest) { pos := 0, errors := ([] : List String) } = some x := by
      simp [lookahead]
    rw [hl]
    simp only
    rw [if_neg (by rintro (hc | hc) <;> [exact h2 hc; exact h3 hc])]
    rfl

/-- Witness for C10 on the token list holding only the sentinel. -/
theorem c10_program_epsilon_witness :
    ([(("$" : String), ("$" : String))] : List PTok).head? = some ("$", "$") ∧
    Program [("$", "$")] 2 { pos := 0, errors := [] } =
      .ok (Node.mk "Program" [Node.mk "Declaration-list" [epsilonNode], Node.mk "$" []])
        { pos := 0, errors := [] } :=
  ⟨rfl, c10_program_epsilon [("$", "$")] ("$", "$") 0 rfl (by decide) (by decide)⟩

/-- C1 (counterexample to the claim as stated): on the input `int`, the
scan-then-parse pass does not complete: the parser raises the out-of-range
lookahead (`IndexError`) at cursor 2, which equals the token sequence length,
so the syntax artifacts are never produced. -/
theorem c1_counterexample : outcomeOf (mainParse 20 "int") = Outcome.crash 2 := rfl

/-- C1 (corrected, amended): the scanner consumes every input in full, but the
parse aborts on some inputs: on the lone keyword `int`, `Declaration-initial`'s
two unconditional advances consume the `$` sentinel, and the next `lookahead`
call hits index 2 = length of the token sequence, the modelled `IndexError`;
this happens for every sufficient fuel, i.e. it is the behaviour of the
unbounded recursion. -/
theorem c1_crash_on_lone_int (fuel : Nat) (h : 5 ≤ fuel) :
    mainTokens "int" = [("KEYWORD", "int"), ("$", "$")] ∧
    Program (mainTokens "int") fuel { pos := 0, errors := [] } = .crash 2 ∧
    (mainTokens "int").length = 2 := by
  obtain ⟨k, rfl⟩ : ∃ k, fuel = k + 5 := ⟨fuel - 5, by omega⟩
  refine ⟨rfl, ?_, rfl⟩
  show Program (mainTokens "int") (k + 5) { pos := 0, errors := [] } = .crash 2
  rw [show mainTokens "int" = [("KEYWORD", "int"), ("$", "$")] from rfl]
  rfl

/-- Witness for the amended C1 at the smallest sufficient fuel. -/
theorem c1_crash_on_lone_int_witness :
    (5 : Nat) ≤ 5 ∧
    (mainTokens "int" = [("KEYWORD", "int"), ("$", "$")] ∧
      Program (mainTokens "int") 5 { pos := 0, errors := [] } = .crash 2 ∧
      (mainTokens "int").length = 2) :=
  ⟨by decide, c1_crash_on_lone_int 5 (by decide)⟩

/-- C3 (counterexample to the claim as stated): parsing the scan of `a [ 1`
records zero syntax errors, not "at least one": the parse returns normally
with cursor 0 and an empty error list. -/
theorem c3_counterexample : outcomeOf (mainParse 20 "a [ 1") = Outcome.ok 0 [] := rfl

/-- C3 (corrected, amended): scanning `a [ 1` yields the tokens
`ID a`, `SYMBOL [`, `NUM 1` plus the sentinel, and the parse terminates
immediately via the epsilon production of `Declaration-list` (the lexeme `a`
is neither `int` nor `void`), consuming nothing and recording zero syntax
errors rather than one or more `missing` diagnostics. -/
theorem c3_epsilon_no_errors :
    mainTokens "a [ 1" = [("ID", "a"), ("SYMBOL", "["), ("NUM", "1"), ("$", "$")] ∧
    mainParse 20 "a [ 1" =
      .ok (Node.mk "Program" [Node.mk "Declaration-list" [epsilonNode], Node.mk "$" []])
        { pos := 0, errors := [] } :=
  ⟨rfl, rfl⟩

end Compiler

